import Mathlib

/-!
The FastFood kernel pipeline of `frp` (`include/frp/kernel.h`) and the line reader of
`gfrp` (`include/gfrp/parser.h`).

A shallow embedding of `GaussianFinalizer`, `FastFoodKernelBlock` and `Kernel`, and of
`ends_with`, `infer_ctype` and `LineReader`.

Buffers are lists of scalars; a `subvector` view is the slice of its parent
that it aliases, read out before an operation and written back after it.
The scalar type `FloatType` is a type parameter `α`, and everything the code
takes from headers other than `kernel.h` (scalar arithmetic, the random stage
constructors and the transform chain of `frp/spinner.h`, the SIMD primitives
of `vec::SIMDTypes`, the `aes::AesCtr` generator) is a field of a parameter
structure, so every theorem holds for any implementation of them.
-/

namespace frp

/-- Failures of the pipeline, one constructor per failing site of the source. -/
inductive Err where
  /-- Exit of `GaussianFinalizer::apply`: "in.size() is not a power of 2", `exit(1)`. -/
  | finalizerNotPow2
  /-- Exception of the `FastFoodKernelBlock` constructor: "size should be a power of two." -/
  | blockNotPow2
  /-- Failure of the `HadamardBlock` constructor on its size. -/
  | hadamardNotPow2
  /-- Exception of `FastFoodKernelBlock::apply`: `throw std::runtime_error("ZOMG")`. -/
  | zomg
  /-- Exception of `Kernel::apply` on a view of the wrong length: "Resizing out block". -/
  | viewSize
  /-- Exit of the `Kernel` constructor: "Stacked size is not evenly divisible.", `exit(1)`. -/
  | notEvenlyDivisible
  /-- Exception of `subvector` asked for a range that leaves its parent. -/
  | invalidSubvector
  deriving DecidableEq, Repr

deriving instance DecidableEq for Except

/-- A 64-bit unsigned value (`size_t`, `uint64_t`) after wrap-around. -/
def u64 (x : Nat) : Nat := x % 2 ^ 64

/-- A 32-bit unsigned value (`u32`) after wrap-around. -/
def u32 (x : Nat) : Nat := x % 2 ^ 32

/-- The test `n & (n - 1)` on a `size_t`: true when the C expression is nonzero. -/
def notPow2Test (n : Nat) : Bool := (n &&& u64 (n + (2 ^ 64 - 1))) != 0

/-- Doubling search used by `roundup`: the first of `p, 2p, 4p, ...` that is `≥ n`. -/
def roundupFrom : Nat → Nat → Nat → Nat
  | 0, p, _ => p
  | fuel + 1, p, n => if n ≤ p then p else roundupFrom fuel (2 * p) n

/-- Modelled from the spec: `roundup` (declared in a utility header that is not among
the sources) pads a size to "the smallest power of two ≥ a requested size". -/
def roundup (n : Nat) : Nat := roundupFrom n 1 n

/-! ## Collaborators from other headers -/

/-- Scalar operations on `FloatType` used by `kernel.h`. -/
structure FloatOps (α : Type) where
  /-- The value `blaze::reset` writes. -/
  zero : α
  /-- The literal `1.`. -/
  one : α
  /-- Multiplication. -/
  mul : α → α → α
  /-- Division. -/
  div : α → α → α
  /-- The function `std::sqrt`. -/
  sqrt : α → α
  /-- The conversion `static_cast<FloatType>` of a `size_t`. -/
  ofNat : Nat → α

/-- Stage `FastFoodGaussianProductBlock<FloatType>(sigma)`. -/
structure FastFoodGaussianProductBlock (α : Type) where
  sigma : α
  deriving DecidableEq, Repr

/-- Stage `RandomGammaIncInvScalingBlock<FloatType>` (alias `RandomScalingBlock`):
the chi-derived scaling diagonal. -/
structure RandomScalingBlock (α : Type) where
  vals : List α
  deriving DecidableEq, Repr

/-- Stage `HadamardBlock(size, renorm)`. -/
structure HadamardBlock where
  n : Nat
  renorm : Bool
  deriving DecidableEq, Repr

/-- Stage `UnitGaussianScalingBlock<FloatType>` (alias `GaussianMatrixType`). -/
structure UnitGaussianScalingBlock (α : Type) where
  vals : List α
  deriving DecidableEq, Repr

/-- Stage `LutShuffler<uint32_t>`: the stored permutation. -/
structure Shuffler where
  lut : List Nat
  deriving DecidableEq, Repr

/-- Stage `CompactRademacher`: the stored signs. -/
structure RademType where
  signs : List Bool
  deriving DecidableEq, Repr

/-- The tuple held by `SpinBlockTransformer<...>` (member `tx_`), in template order. -/
structure SpinTransformer (α : Type) where
  gaussProd : FastFoodGaussianProductBlock α
  rsb : RandomScalingBlock α
  hadamard1 : HadamardBlock
  gm : UnitGaussianScalingBlock α
  shuffler : Shuffler
  hadamard2 : HadamardBlock
  radem : RademType
  deriving DecidableEq, Repr

/-- What `kernel.h` uses from `frp/spinner.h` and `aes::AesCtr`, none of which is
among the sources: the random draws of the stage constructors, the norm of the
Gaussian diagonal, the action of the chain on a buffer, and the seed generator. -/
structure Spinner (α : Type) where
  /-- Values drawn by `RandomScalingBlock(seed, size)`. -/
  gammaIncInv : Nat → Nat → List α
  /-- Values drawn by `UnitGaussianScalingBlock(seed, size)`. -/
  unitGaussian : Nat → Nat → List α
  /-- Permutation drawn by `LutShuffler(size, seed)`. -/
  shuffle : Nat → Nat → List Nat
  /-- Signs drawn by `CompactRademacher(size, seed)`. -/
  rademacher : Nat → Nat → List Bool
  /-- The method `vec_norm()` of the Gaussian diagonal, on its stored values. -/
  vec_norm : List α → α
  /-- Element `j` of the buffer after `SpinBlockTransformer::apply` ran on `buf`. -/
  txAt : SpinTransformer α → List α → Nat → α
  /-- The `k`-th value (from 0) returned by `aes::AesCtr gen(seed)`. -/
  gen : Nat → Nat → Nat

/-- Whether `n = 2 ^ k` for some `k ≥ 0` (so `0` is not a power of two). -/
def isPowerOfTwo (n : Nat) : Bool := (List.range (n + 1)).any (fun k => n == 2 ^ k)

/-- Modelled from the spec: `rescale(factor)` of a diagonal stage, "multiply every
stored value by `factor`" (the method lives in `frp/spinner.h`). -/
def RandomScalingBlock.rescale {α : Type} (F : FloatOps α) (b : RandomScalingBlock α)
    (factor : α) : RandomScalingBlock α :=
  { vals := b.vals.map (fun v => F.mul v factor) }

/-- Modelled from the spec: the constructor of `HadamardBlock` (in `frp/spinner.h`);
"dimension must be a power of two (fail otherwise: `InvalidDimension`)". -/
def HadamardBlock.mk? (size : Nat) (renorm : Bool) : Except Err HadamardBlock :=
  if isPowerOfTwo size then .ok { n := size, renorm := renorm }
  else .error .hadamardNotPow2

/-- The in-place result of `SpinBlockTransformer::apply` on a view: as long as the view. -/
def SpinTransformer.apply {α : Type} (P : Spinner α) (tx : SpinTransformer α)
    (buf : List α) : List α :=
  (List.range buf.length).map (P.txAt tx buf)

/-! ## `FastFoodKernelBlock` -/

/-- Class `FastFoodKernelBlock`: `final_output_size_` and the chain `tx_`. -/
structure FastFoodKernelBlock (α : Type) where
  final_output_size_ : Nat
  tx_ : SpinTransformer α
  deriving DecidableEq, Repr

/-- The member initialisers of the constructor: the chain as `std::make_tuple` builds it,
with the seed arithmetic in 64-bit unsigned integers. -/
def FastFoodKernelBlock.initChain {α : Type} (P : Spinner α) (size : Nat) (sigma : α)
    (seed : Nat) (renorm : Bool) : Except Err (SpinTransformer α) :=
  match HadamardBlock.mk? size renorm with
  | .error e => .error e
  | .ok h =>
    .ok { gaussProd := { sigma := sigma }
          rsb := { vals := P.gammaIncInv
                     (u64 (u64 (seed + u64 (seed * seed)) + (2 ^ 64 - u64 (size * size)))) size }
          hadamard1 := h
          gm := { vals := P.unitGaussian (u64 (seed * seed)) size }
          shuffler := { lut := P.shuffle size seed }
          hadamard2 := h
          radem := { signs := P.rademacher size (u64 ((seed ^^^ u64 (size * size)) + seed)) } }

/-- The constructor `FastFoodKernelBlock(size, sigma, seed, renorm)`. -/
def FastFoodKernelBlock.mk? {α : Type} (F : FloatOps α) (P : Spinner α) (size : Nat)
    (sigma : α) (seed : Nat) (renorm : Bool) : Except Err (FastFoodKernelBlock α) :=
  match FastFoodKernelBlock.initChain P size sigma seed renorm with
  | .error e => .error e
  | .ok tx =>
    if notPow2Test size then .error .blockNotPow2
    else
      .ok { final_output_size_ := size
            tx_ := { tx with
              rsb := tx.rsb.rescale F (F.div F.one (F.sqrt (P.vec_norm tx.gm.vals))) } }

/-- The method `transform_size()`. -/
def FastFoodKernelBlock.transform_size {α : Type} (b : FastFoodKernelBlock α) : Nat :=
  b.final_output_size_

/-! ## `Kernel` construction -/

/-- Struct `GaussianFinalizer`: the precision flag. -/
structure GaussianFinalizer where
  use_lowprec_ : Bool
  deriving DecidableEq, Repr

/-- Class `Kernel<KernelBlock, Finalizer>`. -/
structure Kernel (α : Type) where
  blocks_ : List (FastFoodKernelBlock α)
  finalizer_ : GaussianFinalizer
  deriving DecidableEq, Repr

/-- The loop `while(blocks_.size() < nblocks) blocks_.emplace_back(input_ru, sigma, gen())`,
with `todo = nblocks - blocks_.size()` iterations left. -/
def Kernel.emplaceBlocks {α : Type} (F : FloatOps α) (P : Spinner α) (input_ru : Nat)
    (sigma : α) (seed : Nat) :
    Nat → List (FastFoodKernelBlock α) → Except Err (List (FastFoodKernelBlock α))
  | 0, blocks => .ok blocks
  | todo + 1, blocks =>
    match FastFoodKernelBlock.mk? F P input_ru sigma (P.gen seed blocks.length) true with
    | .error e => .error e
    | .ok b => Kernel.emplaceBlocks F P input_ru sigma seed todo (blocks ++ [b])

/-- The value of `stacked_size` after the `std::max` and the divisibility adjustment. -/
def Kernel.adjustStacked (stacked_size input_ru : Nat) : Nat :=
  let stacked := max stacked_size input_ru
  if stacked % input_ru ≠ 0 then input_ru - stacked % input_ru else stacked

/-- The constructor `Kernel(stacked_size, input_size, sigma, seed, use_low_precision)`. -/
def Kernel.mk? {α : Type} (F : FloatOps α) (P : Spinner α) (stacked_size input_size : Nat)
    (sigma : α) (seed : Nat) (use_low_precision : Bool) : Except Err (Kernel α) :=
  let input_ru := roundup input_size
  let stacked := Kernel.adjustStacked stacked_size input_ru
  if stacked % input_ru ≠ 0 then .error .notEvenlyDivisible
  else
    match Kernel.emplaceBlocks F P input_ru sigma seed (stacked / input_ru) [] with
    | .error e => .error e
    | .ok bs => .ok { blocks_ := bs, finalizer_ := { use_lowprec_ := use_low_precision } }

/-! ## `GaussianFinalizer::apply` -/

/-- What `GaussianFinalizer::apply` uses from `vec::SIMDTypes<FloatType>` (a header that
is not among the sources): the register width and, for each precision, the two lane
functions of the batched primitive, one per component of its result. -/
structure SIMDTypes (α : Type) where
  /-- The constant `sizeof(VT) / sizeof(FloatType)`: elements per register. -/
  ratio : Nat
  /-- Lane function of component `x` of `sincos_u10`. -/
  u10_x : α → α
  /-- Lane function of component `y` of `sincos_u10`. -/
  u10_y : α → α
  /-- Lane function of component `x` of `sincos_u35`. -/
  u35_x : α → α
  /-- Lane function of component `y` of `sincos_u35`. -/
  u35_y : α → α

/-- The type `SIMDType::TypeDouble`: a pair of registers. -/
structure TypeDouble (α : Type) where
  x : List α
  y : List α
  deriving DecidableEq, Repr

/-- The primitive `SIMDType::sincos_u10` on one register. -/
def SIMDTypes.sincos_u10 {α : Type} (S : SIMDTypes α) (v : List α) : TypeDouble α :=
  { x := v.map S.u10_x, y := v.map S.u10_y }

/-- The primitive `SIMDType::sincos_u35` on one register. -/
def SIMDTypes.sincos_u35 {α : Type} (S : SIMDTypes α) (v : List α) : TypeDouble α :=
  { x := v.map S.u35_x, y := v.map S.u35_y }

/-- Lane function of component `x` in the selected precision. -/
def SIMDTypes.lane_x {α : Type} (S : SIMDTypes α) (use_lowprec : Bool) : α → α :=
  if use_lowprec then S.u35_x else S.u10_x

/-- Lane function of component `y` in the selected precision. -/
def SIMDTypes.lane_y {α : Type} (S : SIMDTypes α) (use_lowprec : Bool) : α → α :=
  if use_lowprec then S.u35_y else S.u10_y

/-- Write the elements of `vals` to consecutive positions of `buf` from `off` on. -/
def storeAt {α : Type} : List α → Nat → List α → List α
  | buf, _, [] => buf
  | buf, off, a :: t => storeAt (buf.set off a) (off + 1) t

/-- The read `SIMDType::load((FloatType *)&srcptr[k])` (also `loadu`): register `k` of
the buffer, `srcptr` being a pointer to registers. -/
def SIMDTypes.load {α : Type} (S : SIMDTypes α) (buf : List α) (k : Nat) : List α :=
  (buf.drop (k * S.ratio)).take S.ratio

/-- The write `SIMDType::store((FloatType *)&srcptr[k], reg)` (also `storeu`). -/
def SIMDTypes.store {α : Type} (S : SIMDTypes α) (buf : List α) (k : Nat) (reg : List α) :
    List α :=
  storeAt buf (k * S.ratio) reg

/-- The body of the loop `for(u32 i(...); i;)` of `apply`, entered with counter value
`i ≥ 1`: `dest = sincos(load(&srcptr[i - 1]))`, `store(&srcptr[(i << 1) - 1], dest.y)`,
`store(&srcptr[--i << 1], dest.x)`, with the index arithmetic of `u32`. The six copies
of the loop in the source differ only in the precision and in aligned or unaligned access. -/
def GaussianFinalizer.body {α : Type} (S : SIMDTypes α) (use_lowprec : Bool) (i : Nat)
    (buf : List α) : List α :=
  let dest :=
    if use_lowprec then S.sincos_u35 (S.load buf (i - 1)) else S.sincos_u10 (S.load buf (i - 1))
  let buf1 := S.store buf (u32 (u32 (i <<< 1) + (2 ^ 32 - 1))) dest.y
  S.store buf1 (u32 ((i - 1) <<< 1)) dest.x

/-- The loop `for(u32 i(...); i;)`, entered with counter value `i`: it runs the body
and continues with the decremented counter until the counter is `0`. -/
def GaussianFinalizer.loop {α : Type} (S : SIMDTypes α) (use_lowprec : Bool) :
    Nat → List α → List α
  | 0, buf => buf
  | i + 1, buf =>
    GaussianFinalizer.loop S use_lowprec i (GaussianFinalizer.body S use_lowprec (i + 1) buf)

/-- The method `GaussianFinalizer::apply(in)`: the buffer after the call. -/
def GaussianFinalizer.apply {α : Type} (S : SIMDTypes α) (fin : GaussianFinalizer)
    (inp : List α) : Except Err (List α) :=
  if notPow2Test inp.length then .error .finalizerNotPow2
  else .ok (GaussianFinalizer.loop S fin.use_lowprec_ (u32 ((inp.length >>> 1) / S.ratio)) inp)

/-- Element-wise interleaving of a buffer `v` into `out`: for every `i` below half the
length, `out[2i]` is `first v[i]` and `out[2i+1]` is `second v[i]`. -/
def ElementInterleaved {α : Type} (first second : α → α) (v out : List α) : Prop :=
  ∀ i, i < v.length / 2 →
    out[2 * i]? = v[i]?.map first ∧ out[2 * i + 1]? = v[i]?.map second

/-- Register-wise interleaving with registers of `w` elements: `out` is as long as `v`;
for every register `b` below `(length / 2) / w` and lane `j < w`, register `2b` of `out`
holds `first` and register `2b + 1` holds `second` of lane `j` of register `b` of `v`;
positions from `2 * ((length / 2) / w) * w` on are those of `v`. -/
def RegisterInterleaved {α : Type} (w : Nat) (first second : α → α) (v out : List α) : Prop :=
  out.length = v.length ∧
  (∀ b j, b < v.length / 2 / w → j < w →
    out[2 * b * w + j]? = v[b * w + j]?.map first ∧
    out[(2 * b + 1) * w + j]? = v[b * w + j]?.map second) ∧
  ∀ p, 2 * (v.length / 2 / w) * w ≤ p → out[p]? = v[p]?

/-! ## `FastFoodKernelBlock::apply` -/

/-- The view `subvector(v, index, size)`: the elements it aliases. -/
def subvector {α : Type} (v : List α) (index size : Nat) : Except Err (List α) :=
  if index + size ≤ v.length then .ok ((v.drop index).take size) else .error .invalidSubvector

/-- The statements `blaze::reset(out)` and `subvector(out, 0, in.size()) = in`. -/
def FastFoodKernelBlock.fill {α : Type} (F : FloatOps α) (out inp : List α) :
    Except Err (List α) :=
  let out0 := List.replicate out.length F.zero
  match subvector out0 0 inp.length with
  | .error e => .error e
  | .ok _ => .ok (storeAt out0 0 inp)

/-- The method `FastFoodKernelBlock::apply(out, in)`: the contents of `out` after the call. -/
def FastFoodKernelBlock.apply {α : Type} (F : FloatOps α) (P : Spinner α)
    (b : FastFoodKernelBlock α) (out inp : List α) : Except Err (List α) :=
  if roundup inp.length ≠ b.transform_size then .error .zomg
  else
    match FastFoodKernelBlock.fill F out inp with
    | .error e => .error e
    | .ok out1 =>
      match subvector out1 0 b.transform_size with
      | .error e => .error e
      | .ok half_vector => .ok (storeAt out1 0 (b.tx_.apply P half_vector))

/-! ## `Kernel::apply` -/

/-- The output argument of `Kernel::apply`: its contents and whether its type is a view
(`blaze::IsView<OutputType>::value`). -/
structure OutputType (α : Type) where
  isView : Bool
  data : List α
  deriving DecidableEq, Repr

/-- The call `out.resize(n)` on an owning vector: the elements kept, then storage that the
call leaves uninitialised, whose contents are `fresh`. -/
def resize {α : Type} (fresh : Nat → α) (v : List α) (n : Nat) : List α :=
  (List.range n).map (fun j => match v[j]? with
    | some a => a
    | none => fresh j)

/-- The call `vec::blockmul(out, s)`: every element multiplied by `s`. -/
def blockmul {α : Type} (F : FloatOps α) (v : List α) (s : α) : List α :=
  v.map (fun a => F.mul a s)

/-- The arguments `(index, size)` of the `subvector` that the loop of `Kernel::apply`
takes for block `i`. -/
def Kernel.svArgs (in_rounded i : Nat) : Nat × Nat :=
  ((in_rounded <<< 1) * i, in_rounded)

/-- The loop `for(size_t i = 0; i < blocks_.size(); ++i)` of `Kernel::apply`, from block
`i` on, `blocks` being the blocks not yet applied. -/
def Kernel.applyBlocks {α : Type} (F : FloatOps α) (P : Spinner α) (S : SIMDTypes α)
    (fin : GaussianFinalizer) (inp : List α) (in_rounded : Nat) :
    List (FastFoodKernelBlock α) → Nat → List α → Except Err (List α)
  | [], _, out => .ok out
  | b :: rest, i, out =>
    match subvector out (Kernel.svArgs in_rounded i).1 (Kernel.svArgs in_rounded i).2 with
    | .error e => .error e
    | .ok sv =>
      match b.apply F P sv inp with
      | .error e => .error e
      | .ok sv1 =>
        match fin.apply S sv1 with
        | .error e => .error e
        | .ok sv2 =>
          Kernel.applyBlocks F P S fin inp in_rounded rest (i + 1)
            (storeAt out (Kernel.svArgs in_rounded i).1 sv2)

/-- The size check at the head of `Kernel::apply`: the buffer the loop will run on. -/
def Kernel.sizeOut {α : Type} (K : Kernel α) (fresh : Nat → α) (out : OutputType α)
    (inp : List α) : Except Err (List α) :=
  let in_rounded := roundup inp.length
  if out.data.length ≠ (K.blocks_.length <<< 1) * in_rounded then
    if out.isView then .error .viewSize
    else .ok (resize fresh out.data ((K.blocks_.length <<< 1) * in_rounded))
  else .ok out.data

/-- The method `Kernel::apply(out, in)`: the contents of `out` after the call. -/
def Kernel.apply {α : Type} (F : FloatOps α) (P : Spinner α) (S : SIMDTypes α)
    (K : Kernel α) (fresh : Nat → α) (out : OutputType α) (inp : List α) :
    Except Err (List α) :=
  match K.sizeOut fresh out inp with
  | .error e => .error e
  | .ok data =>
    match Kernel.applyBlocks F P S K.finalizer_ inp (roundup inp.length) K.blocks_ 0 data with
    | .error e => .error e
    | .ok data1 =>
      .ok (blockmul F data1 (F.div F.one (F.sqrt (F.ofNat (data1.length >>> 1)))))

/-! ## A concrete instance over the rationals

Used to evaluate the definitions on explicit inputs. All its values in the examples
below are dyadic rationals on which the operations are exact. -/

/-- Integer square root by search: the largest `k` with `k * k ≤ n`. -/
def isqrt (n : Nat) : Nat := ((List.range (n + 1)).filter (fun k => k * k ≤ n)).length - 1

/-- Square root on rationals, exact on squares of rationals. -/
def qsqrt (q : ℚ) : ℚ := (isqrt q.num.toNat : ℚ) / (isqrt q.den : ℚ)

/-- Rational arithmetic as `FloatType`. -/
def ratOps : FloatOps ℚ :=
  { zero := 0, one := 1, mul := fun a b => a * b, div := fun a b => a / b, sqrt := qsqrt,
    ofNat := fun n => (n : ℚ) }

/-- A batched primitive of width `w` whose `x` lane is the cubic Taylor polynomial of the
sine and whose `y` lane is the quadratic one of the cosine (exact at `0`). -/
def ratSimd (w : Nat) : SIMDTypes ℚ :=
  { ratio := w
    u10_x := fun t => t - t * t * t / 6
    u10_y := fun t => 1 - t * t / 2
    u35_x := fun t => t - t * t * t / 6
    u35_y := fun t => 1 - t * t / 2 }

/-- Stage constructors with fixed draws, a chain that multiplies lane-wise by the three
scaling stages, and a counter as seed generator. -/
def ratSpinner : Spinner ℚ :=
  { gammaIncInv := fun _ size => List.replicate size 1
    unitGaussian := fun _ size => List.replicate size 2
    shuffle := fun size _ => List.range size
    rademacher := fun size _ => List.replicate size true
    vec_norm := fun vals => qsqrt ((vals.map (fun v => v * v)).sum)
    txAt := fun tx buf j => buf.getD j 0 * tx.gaussProd.sigma * tx.rsb.vals.getD j 0 *
      tx.gm.vals.getD j 0
    gen := fun seed k => seed + k }

/-- The ensemble that `Kernel(4, 4, 1, 42)` builds in the instance above: one block of
dimension 4 whose scaling diagonal, drawn as ones, was rescaled by `1/√(‖(2,2,2,2)‖) = 1/2`. -/
def ratKernel : Kernel ℚ :=
  { blocks_ :=
      [{ final_output_size_ := 4
         tx_ :=
           { gaussProd := { sigma := 1 }
             rsb := { vals := [1 / 2, 1 / 2, 1 / 2, 1 / 2] }
             hadamard1 := { n := 4, renorm := true }
             gm := { vals := [2, 2, 2, 2] }
             shuffler := { lut := [0, 1, 2, 3] }
             hadamard2 := { n := 4, renorm := true }
             radem := { signs := [true, true, true, true] } } }]
    finalizer_ := { use_lowprec_ := false } }

/-- The out-of-place loop that C14 compares with: entered with `i` registers still to
expand, it reads register `i - 1` of the untouched copy `src` and writes the two
components of the primitive to registers `2(i - 1)` and `2(i - 1) + 1` of `out`. -/
def GaussianFinalizer.outOfPlaceLoop {α : Type} (S : SIMDTypes α) (use_lowprec : Bool)
    (src : List α) : Nat → List α → List α
  | 0, out => out
  | i + 1, out =>
    let dest :=
      if use_lowprec then S.sincos_u35 (S.load src i) else S.sincos_u10 (S.load src i)
    GaussianFinalizer.outOfPlaceLoop S use_lowprec src i
      (S.store (S.store out (2 * i + 1) dest.y) (2 * i) dest.x)

/-- The out-of-place computation of C14, following its words: with `v` kept as the source
copy, every register `b` below `(N/2)/w` is read from `v` and expanded into registers `2b`
and `2b + 1` of the result (which starts as another copy of `v`). -/
def GaussianFinalizer.applyOutOfPlace {α : Type} (S : SIMDTypes α) (fin : GaussianFinalizer)
    (v : List α) : List α :=
  GaussianFinalizer.outOfPlaceLoop S fin.use_lowprec_ v (v.length / 2 / S.ratio) v

end frp

/-! ## The line reader of `gfrp` (`include/gfrp/parser.h`) -/

namespace gfrp

/-- Constant `zlibsuf` of namespace `gfrp::io`. -/
def zlibsuf : String := ".gz"

/-- Constant `bzip2suf` of namespace `gfrp::io`. -/
def bzip2suf : String := ".bz2"

/-- Constant `zstdsuf` of namespace `gfrp::io`. -/
def zstdsuf : String := ".zst"

/-- Constant `zlibcmd` of namespace `gfrp::io`. -/
def zlibcmd : String := "gzip -dc "

/-- Constant `bzip2cmd` of namespace `gfrp::io`. -/
def bzip2cmd : String := "bzip2 -dc "

/-- Constant `zstdcmd` of namespace `gfrp::io`, spelled as in the source. -/
def zstdcmd : String := "ztd -dc "

/-- The three-iterator `std::equal(first1, last1, first2)` on characters: `pat` is the
range `[first1, last1)` and `ref` what can be read from `first2` on. It compares position
by position and stops at the first difference; `none` when it has to read `first2` past
the end of what `ref` holds (a read outside the string, undefined in C++). -/
def equal3 : List Char → List Char → Option Bool
  | [], _ => some true
  | _ :: _, [] => none
  | a :: pat, b :: ref => if a = b then equal3 pat ref else some false

/-- The function `io::ends_with(pat, ref)`:
`std::equal(std::rbegin(pat), std::rend(pat), std::rbegin(ref))`. -/
def ends_with (pat ref : String) : Option Bool :=
  equal3 pat.data.reverse ref.data.reverse

/-- The values of `enum CType`: an integer code. -/
abbrev CType := Int

/-- Enumerator `UNKNOWN = -1`. -/
abbrev UNKNOWN : CType := -1

/-- Enumerator `UNCOMPRESSED = 0`. -/
abbrev UNCOMPRESSED : CType := 0

/-- Enumerator `ZLIB = 1`. -/
abbrev ZLIB : CType := 1

/-- Enumerator `ZSTD = 2`. -/
abbrev ZSTD : CType := 2

/-- Enumerator `BZIP2 = 3`. -/
abbrev BZIP2 : CType := 3

/-- The function `io::infer_ctype(path)`; `none` when one of its suffix tests reads
outside `path`. -/
def infer_ctype (path : String) : Option CType :=
  match ends_with zlibsuf path with
  | none => none
  | some true => some ZLIB
  | some false =>
    match ends_with bzip2suf path with
    | none => none
    | some true => some BZIP2
    | some false =>
      match ends_with zstdsuf path with
      | none => none
      | some true => some ZSTD
      | some false => some UNCOMPRESSED

/-- What `LineReader::begin` opens: `fopen(path, mode)` or `popen(command, mode)`. -/
inductive Source where
  | fopen (path mode : String)
  | popen (command mode : String)
  deriving DecidableEq, Repr

/-- An open `FILE *`: the call that opened it and the characters still to be read. -/
structure Stream where
  source : Source
  rest : List Char
  deriving DecidableEq, Repr

/-- Class `LineReader`: its members; `fp_ = none` is the null pointer. -/
structure LineReader where
  fp_ : Option Stream
  path_ : String
  ctype_ : CType
  delim_ : Char
  bufsz_ : Nat
  len_ : Int
  data_ : List Char
  deriving DecidableEq, Repr

/-- The C library as the reader uses it (not part of the sources): what a call of `fopen`
or `popen` delivers, `none` when the call returns `NULL`, and the buffer size that
`getdelim` reports after a record of a given length. -/
structure Streams where
  /-- The characters the stream opened by the call will deliver, or `none` for `NULL`. -/
  openStream : Source → Option (List Char)
  /-- The new value of `*n` after `getdelim` stored a record: old size, record length. -/
  grow : Nat → Nat → Nat

/-- The record that `getdelim` reads: the characters up to and including the first
delimiter (or up to the end of the stream), and the characters left in the stream. -/
def getdelim (delim : Char) : List Char → List Char × List Char
  | [] => ([], [])
  | c :: cs =>
    if c = delim then ([c], cs)
    else (c :: (getdelim delim cs).1, (getdelim delim cs).2)

/-- The member initialisers of the constructor, for a resolved type code: `fp_(nullptr)`,
`len_(0)`, and a buffer with nothing read into it. -/
def LineReader.init (path : String) (ctype : CType) (delim : Char) (bufsz : Nat) :
    LineReader :=
  { fp_ := none, path_ := path, ctype_ := ctype, delim_ := delim, bufsz_ := bufsz,
    len_ := 0, data_ := [] }

/-- The constructor `LineReader(path, delim, bufsz, ctype)`:
`ctype_(ctype >= 0 ? ctype : io::infer_ctype(path_))`. -/
def LineReader.mk? (path : String) (delim : Char) (bufsz : Nat) (ctype : CType) :
    Option LineReader :=
  if ctype ≥ 0 then some (LineReader.init path ctype delim bufsz)
  else
    match infer_ctype path with
    | none => none
    | some c => some (LineReader.init path c delim bufsz)

/-- The `switch(ctype_)` of `LineReader::begin()`: the call whose result is assigned to
`fp_`, or the message of the `std::runtime_error` thrown by the `default` case. -/
def LineReader.openCall (r : LineReader) : Except String Source :=
  if r.ctype_ = UNCOMPRESSED then .ok (.fopen r.path_ "r")
  else if r.ctype_ = ZLIB then .ok (.popen (zlibcmd ++ r.path_) "r")
  else if r.ctype_ = BZIP2 then .ok (.popen (bzip2cmd ++ r.path_) "r")
  else if r.ctype_ = ZSTD then .ok (.popen (zstdcmd ++ r.path_) "r")
  else .error ("Unexpected ctype code: " ++ toString r.ctype_)

/-- How a call of `begin()` ends without returning an iterator. -/
inductive BeginError where
  /-- The `std::runtime_error` of the `default` case, with its message. -/
  | runtime_error (msg : String)
  /-- The call `getdelim(..., fp_)` on a null `fp_`: there is no null check, the call is
  undefined and the program crashes. -/
  | nullStream
  deriving DecidableEq, Repr

/-- The increment `LineIterator::operator++`:
`ref_.len_ = getdelim(&ref_.data_, &ref_.bufsz_, ref_.delim_, ref_.fp_)`; the length is
`-1` when nothing could be read. -/
def LineReader.advance (W : Streams) (r : LineReader) : Except BeginError LineReader :=
  match r.fp_ with
  | none => .error .nullStream
  | some s =>
    .ok { r with
      fp_ := some { s with rest := (getdelim r.delim_ s.rest).2 }
      len_ := if (getdelim r.delim_ s.rest).1 = [] then -1
        else ((getdelim r.delim_ s.rest).1.length : Int)
      data_ := if (getdelim r.delim_ s.rest).1 = [] then r.data_
        else (getdelim r.delim_ s.rest).1
      bufsz_ := W.grow r.bufsz_ (getdelim r.delim_ s.rest).1.length }

/-- The method `LineReader::begin()`: a stream still open is closed (it is dropped from
the state), the `switch` assigns the result of its call to `fp_`, also when that result is
`NULL`, and `return ++ret` reads the first record. -/
def LineReader.begin (W : Streams) (r : LineReader) : Except BeginError LineReader :=
  match r.openCall with
  | .error msg => .error (.runtime_error msg)
  | .ok src =>
    LineReader.advance W
      { r with fp_ := (W.openStream src).map (fun c => { source := src, rest := c }) }

/-- A C library in which `fopen("data.xz", "r")` delivers two lines, `"ab"` and `"cd"`,
`popen("ztd -dc a.zst", "r")` delivers nothing (the shell finds no such command), and every
other call returns `NULL`. -/
def demoStreams : Streams :=
  { openStream := fun src =>
      if src = .fopen "data.xz" "r" then some ("ab".data ++ [Char.ofNat 10] ++ "cd".data)
      else if src = .popen "ztd -dc a.zst" "r" then some []
      else none
    grow := fun old n => max old (n + 1) }

end gfrp

namespace frp

/-! ## Facts about `roundup` and the power-of-two tests -/

theorem roundupFrom_spec (fuel : Nat) : ∀ (j n : Nat), n ≤ 2 ^ j * 2 ^ fuel →
    ∃ k, roundupFrom fuel (2 ^ j) n = 2 ^ k ∧ n ≤ 2 ^ k ∧ ∀ m, j ≤ m → n ≤ 2 ^ m → k ≤ m := by
  induction fuel with
  | zero =>
    intro j n h
    exact ⟨j, rfl, by simpa using h, fun m hm _ => hm⟩
  | succ f ih =>
    intro j n h
    by_cases hn : n ≤ 2 ^ j
    · exact ⟨j, by simp [roundupFrom, hn], hn, fun m hm _ => hm⟩
    · have h2 : n ≤ 2 ^ (j + 1) * 2 ^ f := by
        have : 2 ^ (j + 1) * 2 ^ f = 2 ^ j * 2 ^ (f + 1) := by ring
        omega
      obtain ⟨k, hk, hle, hmin⟩ := ih (j + 1) n h2
      refine ⟨k, ?_, hle, ?_⟩
      · have : 2 * 2 ^ j = 2 ^ (j + 1) := by ring
        simp [roundupFrom, hn, this, hk]
      · intro m hm hnm
        have hne : m ≠ j := by
          rintro rfl
          exact hn hnm
        exact hmin m (by omega) hnm

/-- The padded size is a power of two, is at least the request, and is the least such. -/
theorem roundup_spec (n : Nat) :
    ∃ k, roundup n = 2 ^ k ∧ n ≤ 2 ^ k ∧ ∀ m, n ≤ 2 ^ m → k ≤ m := by
  have h : n ≤ 2 ^ 0 * 2 ^ n := by
    have := @Nat.lt_two_pow n
    omega
  obtain ⟨k, hk, hle, hmin⟩ := roundupFrom_spec n 0 n h
  exact ⟨k, hk, hle, fun m hm => hmin m (Nat.zero_le m) hm⟩

theorem roundup_pos (n : Nat) : 0 < roundup n := by
  obtain ⟨k, hk, _, _⟩ := roundup_spec n
  rw [hk]
  exact Nat.pos_pow_of_pos k (by decide)

theorem le_roundup (n : Nat) : n ≤ roundup n := by
  obtain ⟨k, hk, hle, _⟩ := roundup_spec n
  omega

theorem isPowerOfTwo_iff (n : Nat) : isPowerOfTwo n = true ↔ ∃ k, n = 2 ^ k := by
  unfold isPowerOfTwo
  simp only [List.any_eq_true, List.mem_range, beq_iff_eq]
  constructor
  · rintro ⟨k, _, hk⟩
    exact ⟨k, hk⟩
  · rintro ⟨k, hk⟩
    refine ⟨k, ?_, hk⟩
    have := @Nat.lt_two_pow k
    omega

theorem notPow2Test_two_pow (k : Nat) : notPow2Test (2 ^ k) = false := by
  have key : 2 ^ k &&& u64 (2 ^ k + (2 ^ 64 - 1)) = 0 := by
    by_cases hk : k < 64
    · have hlt : 2 ^ k < 2 ^ 64 := Nat.pow_lt_pow_right (by decide) hk
      have hpos : 0 < 2 ^ k := Nat.pos_pow_of_pos k (by decide)
      have h1 : u64 (2 ^ k + (2 ^ 64 - 1)) = 2 ^ k - 1 := by
        unfold u64
        have : 2 ^ k + (2 ^ 64 - 1) = (2 ^ k - 1) + 2 ^ 64 := by omega
        rw [this, Nat.add_mod_right]
        exact Nat.mod_eq_of_lt (by omega)
      rw [h1, Nat.and_pow_two_sub_one_eq_mod, Nat.mod_self]
    · have hdvd : 2 ^ 64 ∣ 2 ^ k := Nat.pow_dvd_pow 2 (by omega)
      have h1 : u64 (2 ^ k + (2 ^ 64 - 1)) = 2 ^ 64 - 1 := by
        unfold u64
        obtain ⟨c, hc⟩ := hdvd
        rw [hc, Nat.mul_add_mod]
        exact Nat.mod_eq_of_lt (by decide)
      rw [h1, Nat.and_pow_two_sub_one_eq_mod]
      exact Nat.mod_eq_zero_of_dvd hdvd
  unfold notPow2Test
  rw [key]
  rfl

/-! ## Construction succeeds on padded sizes -/

theorem FastFoodKernelBlock.mk?_two_pow {α : Type} (F : FloatOps α) (P : Spinner α) (k : Nat)
    (sigma : α) (seed : Nat) (renorm : Bool) :
    ∃ b, FastFoodKernelBlock.mk? F P (2 ^ k) sigma seed renorm = .ok b ∧
      b.final_output_size_ = 2 ^ k := by
  have h1 : isPowerOfTwo (2 ^ k) = true := (isPowerOfTwo_iff _).2 ⟨k, rfl⟩
  simp [FastFoodKernelBlock.mk?, FastFoodKernelBlock.initChain, HadamardBlock.mk?, h1,
    notPow2Test_two_pow]

theorem Kernel.emplaceBlocks_two_pow {α : Type} (F : FloatOps α) (P : Spinner α) (k : Nat)
    (sigma : α) (seed : Nat) (todo : Nat) : ∀ (blocks : List (FastFoodKernelBlock α)),
    (∀ b ∈ blocks, b.final_output_size_ = 2 ^ k) →
    ∃ bs, Kernel.emplaceBlocks F P (2 ^ k) sigma seed todo blocks = .ok bs ∧
      bs.length = blocks.length + todo ∧ ∀ b ∈ bs, b.final_output_size_ = 2 ^ k := by
  induction todo with
  | zero =>
    intro blocks hb
    exact ⟨blocks, rfl, rfl, hb⟩
  | succ t ih =>
    intro blocks hb
    obtain ⟨b, hb1, hb2⟩ :=
      FastFoodKernelBlock.mk?_two_pow F P k sigma (P.gen seed blocks.length) true
    obtain ⟨bs, h1, h2, h3⟩ := ih (blocks ++ [b]) (by
      intro c hc
      rcases List.mem_append.1 hc with h | h
      · exact hb c h
      · simp at h
        rw [h]
        exact hb2)
    refine ⟨bs, ?_, ?_, h3⟩
    · simp [Kernel.emplaceBlocks, hb1, h1]
    · simp at h2
      omega

/-- The adjusted stacked size is a multiple of the padded size exactly when the
requested one (after `std::max`) already was. -/
theorem Kernel.adjustStacked_mod (s p : Nat) (hp : 0 < p) :
    (Kernel.adjustStacked s p % p ≠ 0 ↔ max s p % p ≠ 0) ∧
    (max s p % p = 0 → Kernel.adjustStacked s p = max s p) := by
  unfold Kernel.adjustStacked
  by_cases h : max s p % p = 0
  · simp [h]
  · have hlt : max s p % p < p := Nat.mod_lt _ hp
    have h1 : (p - max s p % p) % p = p - max s p % p := Nat.mod_eq_of_lt (by omega)
    simp only [ne_eq, h, not_false_eq_true, ite_true, h1, iff_true, false_implies, and_true]
    omega

/-- What the constructor returns, for a padded size `2 ^ k`. -/
theorem Kernel.mk?_cases {α : Type} (F : FloatOps α) (P : Spinner α) (s n : Nat)
    (sigma : α) (seed : Nat) (lp : Bool) :
    (max s (roundup n) % roundup n ≠ 0 ∧
      Kernel.mk? F P s n sigma seed lp = .error .notEvenlyDivisible) ∨
    (max s (roundup n) % roundup n = 0 ∧
      ∃ K, Kernel.mk? F P s n sigma seed lp = .ok K ∧
        K.blocks_.length = max s (roundup n) / roundup n ∧
        K.finalizer_.use_lowprec_ = lp ∧
        ∀ b ∈ K.blocks_, b.final_output_size_ = roundup n) := by
  obtain ⟨k, hk, -, -⟩ := roundup_spec n
  have hp := roundup_pos n
  obtain ⟨hiff, heq⟩ := Kernel.adjustStacked_mod s (roundup n) hp
  by_cases h : max s (roundup n) % roundup n = 0
  · right
    refine ⟨h, ?_⟩
    have hadj := heq h
    obtain ⟨bs, h1, h2, h3⟩ := Kernel.emplaceBlocks_two_pow F P k sigma seed
      (max s (roundup n) / roundup n) [] (by simp)
    rw [← hk] at h1 h3
    refine ⟨{ blocks_ := bs, finalizer_ := { use_lowprec_ := lp } }, ?_, by simpa using h2,
      rfl, h3⟩
    simp [Kernel.mk?, hadj, h, h1]
  · left
    refine ⟨h, ?_⟩
    have := hiff.2 h
    simp [Kernel.mk?, this]

/-! ## Stores and loads, position by position -/

theorem storeAt_length {α : Type} (vals : List α) : ∀ (buf : List α) (off : Nat),
    (storeAt buf off vals).length = buf.length := by
  induction vals with
  | nil => intro buf off; rfl
  | cons a t ih =>
    intro buf off
    simp [storeAt, ih]

theorem getElem?_storeAt {α : Type} (vals : List α) : ∀ (buf : List α) (off p : Nat),
    (storeAt buf off vals)[p]? =
      if off ≤ p ∧ p < off + vals.length ∧ p < buf.length then vals[p - off]? else buf[p]? := by
  induction vals with
  | nil =>
    intro buf off p
    have h : ¬ (off ≤ p ∧ p < off + ([] : List α).length ∧ p < buf.length) := by
      simp only [List.length_nil]
      omega
    rw [if_neg h]
    rfl
  | cons a t ih =>
    intro buf off p
    simp only [storeAt, ih, List.length_set, List.length_cons]
    by_cases h1 : off + 1 ≤ p ∧ p < off + 1 + t.length ∧ p < buf.length
    · have h2 : off ≤ p ∧ p < off + (t.length + 1) ∧ p < buf.length := by omega
      have h3 : p - off = (p - (off + 1)) + 1 := by omega
      rw [if_pos h1, if_pos h2, h3]
      simp
    · rw [if_neg h1]
      by_cases h4 : off = p
      · subst h4
        by_cases h5 : off < buf.length
        · have h6 : off ≤ off ∧ off < off + (t.length + 1) ∧ off < buf.length := by omega
          rw [if_pos h6]
          simp [List.getElem?_set, h5]
        · have h6 : ¬ (off ≤ off ∧ off < off + (t.length + 1) ∧ off < buf.length) := by omega
          rw [if_neg h6]
          simp [List.getElem?_set, h5]
          omega
      · have h6 : ¬ (off ≤ p ∧ p < off + (t.length + 1) ∧ p < buf.length) := by omega
        rw [if_neg h6]
        simp [List.getElem?_set, h4]

theorem storeAt_eq_append {α : Type} (vals : List α) : ∀ (buf : List α) (off : Nat),
    off + vals.length ≤ buf.length →
    storeAt buf off vals = buf.take off ++ vals ++ buf.drop (off + vals.length) := by
  intro buf off h
  apply List.ext_getElem?
  intro p
  rw [getElem?_storeAt]
  by_cases h1 : off ≤ p ∧ p < off + vals.length ∧ p < buf.length
  · rw [if_pos h1, List.append_assoc, List.getElem?_append_right (by simp; omega)]
    have h2 : (List.take off buf).length = off := by simp; omega
    rw [h2, List.getElem?_append_left (by omega)]
  · rw [if_neg h1]
    by_cases h3 : p < off
    · rw [List.append_assoc, List.getElem?_append_left (by simp; omega)]
      simp [List.getElem?_take, h3]
    · have h4 : off + vals.length ≤ p := by omega
      rw [List.getElem?_append_right (by simp; omega)]
      simp only [List.length_append, List.length_take, List.getElem?_drop]
      congr 1
      omega

theorem getElem?_load {α : Type} (S : SIMDTypes α) (buf : List α) (k j : Nat) :
    (S.load buf k)[j]? = if j < S.ratio then buf[k * S.ratio + j]? else none := by
  unfold SIMDTypes.load
  by_cases h : j < S.ratio
  · simp [List.getElem?_take, h]
  · simp [List.getElem?_take, h]

/-! ## The finalizer loop -/

theorem GaussianFinalizer.dest_x {α : Type} (S : SIMDTypes α) (lp : Bool) (reg : List α) :
    (if lp then S.sincos_u35 reg else S.sincos_u10 reg).x = reg.map (S.lane_x lp) := by
  cases lp <;> rfl

theorem GaussianFinalizer.dest_y {α : Type} (S : SIMDTypes α) (lp : Bool) (reg : List α) :
    (if lp then S.sincos_u35 reg else S.sincos_u10 reg).y = reg.map (S.lane_y lp) := by
  cases lp <;> rfl

/-- One pass of the body at counter `m + 1`: register `2m` receives component `x` and
register `2m + 1` component `y` of register `m`; nothing else changes. -/
theorem GaussianFinalizer.body_spec {α : Type} (S : SIMDTypes α) (lp : Bool) (m : Nat)
    (buf : List α) (hm : m + 1 < 2 ^ 31) (hlen : 2 * (m * S.ratio) + 2 * S.ratio ≤ buf.length) :
    (GaussianFinalizer.body S lp (m + 1) buf).length = buf.length ∧
    (∀ p, p < 2 * (m * S.ratio) → (GaussianFinalizer.body S lp (m + 1) buf)[p]? = buf[p]?) ∧
    (∀ p, 2 * (m * S.ratio) + 2 * S.ratio ≤ p →
      (GaussianFinalizer.body S lp (m + 1) buf)[p]? = buf[p]?) ∧
    (∀ j, j < S.ratio →
      (GaussianFinalizer.body S lp (m + 1) buf)[2 * (m * S.ratio) + j]? =
        buf[m * S.ratio + j]?.map (S.lane_x lp) ∧
      (GaussianFinalizer.body S lp (m + 1) buf)[2 * (m * S.ratio) + S.ratio + j]? =
        buf[m * S.ratio + j]?.map (S.lane_y lp)) := by
  have hk1 : u32 (u32 ((m + 1) <<< 1) + (2 ^ 32 - 1)) * S.ratio
      = 2 * (m * S.ratio) + S.ratio := by
    have h1 : u32 (u32 ((m + 1) <<< 1) + (2 ^ 32 - 1)) = 2 * m + 1 := by
      simp only [u32, Nat.shiftLeft_eq]
      omega
    rw [h1]
    ring
  have hk0 : u32 (m <<< 1) * S.ratio = 2 * (m * S.ratio) := by
    have h0 : u32 (m <<< 1) = 2 * m := by
      simp only [u32, Nat.shiftLeft_eq]
      omega
    rw [h0]
    ring
  have hreg : (S.load buf m).length = S.ratio := by
    simp only [SIMDTypes.load, List.length_take, List.length_drop]
    omega
  have hget : ∀ p, (GaussianFinalizer.body S lp (m + 1) buf)[p]? =
      if 2 * (m * S.ratio) ≤ p ∧ p < 2 * (m * S.ratio) + S.ratio then
        buf[m * S.ratio + (p - 2 * (m * S.ratio))]?.map (S.lane_x lp)
      else if 2 * (m * S.ratio) + S.ratio ≤ p ∧ p < 2 * (m * S.ratio) + 2 * S.ratio then
        buf[m * S.ratio + (p - (2 * (m * S.ratio) + S.ratio))]?.map (S.lane_y lp)
      else buf[p]? := by
    intro p
    simp only [GaussianFinalizer.body, SIMDTypes.store, GaussianFinalizer.dest_x,
      GaussianFinalizer.dest_y, hk1, hk0, getElem?_storeAt, storeAt_length, List.length_map,
      hreg, List.getElem?_map, getElem?_load, Nat.add_sub_cancel]
    by_cases ha : 2 * (m * S.ratio) ≤ p ∧ p < 2 * (m * S.ratio) + S.ratio
    · have ha2 : 2 * (m * S.ratio) ≤ p ∧ p < 2 * (m * S.ratio) + S.ratio ∧ p < buf.length := by
        omega
      have ha3 : p - 2 * (m * S.ratio) < S.ratio := by omega
      rw [if_pos ha, if_pos ha2, if_pos ha3]
    · have ha2 : ¬ (2 * (m * S.ratio) ≤ p ∧ p < 2 * (m * S.ratio) + S.ratio ∧
          p < buf.length) := by omega
      rw [if_neg ha, if_neg ha2]
      by_cases hb : 2 * (m * S.ratio) + S.ratio ≤ p ∧ p < 2 * (m * S.ratio) + 2 * S.ratio
      · have hb2 : 2 * (m * S.ratio) + S.ratio ≤ p ∧ p < 2 * (m * S.ratio) + S.ratio + S.ratio ∧
            p < buf.length := by omega
        have hb3 : p - (2 * (m * S.ratio) + S.ratio) < S.ratio := by omega
        rw [if_pos hb, if_pos hb2, if_pos hb3]
      · have hb2 : ¬ (2 * (m * S.ratio) + S.ratio ≤ p ∧
            p < 2 * (m * S.ratio) + S.ratio + S.ratio ∧ p < buf.length) := by omega
        rw [if_neg hb, if_neg hb2]
  refine ⟨?_, ?_, ?_, ?_⟩
  · simp [GaussianFinalizer.body, SIMDTypes.store, storeAt_length]
  · intro p hp
    rw [hget, if_neg (by omega), if_neg (by omega)]
  · intro p hp
    rw [hget, if_neg (by omega), if_neg (by omega)]
  · intro j hj
    constructor
    · rw [hget, if_pos (by omega)]
      congr 2
      omega
    · rw [hget, if_neg (by omega), if_pos (by omega)]
      congr 2
      omega

/-- The loop entered with counter `i`: registers `2b` and `2b + 1` receive components
`x` and `y` of the original register `b`, for every `b < i`; the rest is untouched. -/
theorem GaussianFinalizer.loop_spec {α : Type} (S : SIMDTypes α) (lp : Bool) (i : Nat) :
    ∀ (buf : List α), i < 2 ^ 31 → 2 * (i * S.ratio) ≤ buf.length →
    (GaussianFinalizer.loop S lp i buf).length = buf.length ∧
    (∀ p, 2 * (i * S.ratio) ≤ p → (GaussianFinalizer.loop S lp i buf)[p]? = buf[p]?) ∧
    (∀ b j, b < i → j < S.ratio →
      (GaussianFinalizer.loop S lp i buf)[2 * (b * S.ratio) + j]? =
        buf[b * S.ratio + j]?.map (S.lane_x lp) ∧
      (GaussianFinalizer.loop S lp i buf)[2 * (b * S.ratio) + S.ratio + j]? =
        buf[b * S.ratio + j]?.map (S.lane_y lp)) := by
  induction i with
  | zero =>
    intro buf _ _
    refine ⟨rfl, fun p _ => rfl, ?_⟩
    intro b j hb
    omega
  | succ m ih =>
    intro buf hm hlen
    have hmul : (m + 1) * S.ratio = m * S.ratio + S.ratio := Nat.succ_mul m S.ratio
    rw [hmul] at hlen
    obtain ⟨hl, hlow, hhigh, hmid⟩ := GaussianFinalizer.body_spec S lp m buf hm (by omega)
    obtain ⟨il, ihigh, imid⟩ := ih (GaussianFinalizer.body S lp (m + 1) buf) (by omega)
      (by rw [hl]; omega)
    simp only [GaussianFinalizer.loop]
    refine ⟨by rw [il, hl], ?_, ?_⟩
    · intro p hp
      rw [hmul] at hp
      rw [ihigh p (by omega), hhigh p (by omega)]
    · intro b j hb hj
      by_cases hbm : b < m
      · have hle : b * S.ratio + S.ratio ≤ m * S.ratio := by
          have := Nat.mul_le_mul_right S.ratio (Nat.succ_le_of_lt hbm)
          rw [Nat.succ_mul] at this
          exact this
        obtain ⟨hx, hy⟩ := imid b j hbm hj
        rw [hx, hy, hlow (b * S.ratio + j) (by omega)]
        exact ⟨rfl, rfl⟩
      · have hbe : b = m := by omega
        subst hbe
        obtain ⟨hx, hy⟩ := hmid j hj
        rw [ihigh _ (by omega), ihigh _ (by omega), hx, hy]
        exact ⟨rfl, rfl⟩

/-! ## Claims on `GaussianFinalizer::apply` -/

/-- C1, as the code has it: for a buffer `v` whose length is a power of two, with at
most `2 ^ 31 - 1` loop iterations, `GaussianFinalizer::apply` succeeds in either precision
mode and interleaves register-wise: register `2b` of the result holds component `x` and
register `2b + 1` component `y` of the primitive applied to register `b` of `v`, and the
tail beyond the last written register is unchanged. With registers of one element this is
`out[2i] = x(v[i])`, `out[2i+1] = y(v[i])`. -/
theorem GaussianFinalizer.apply_register_layout {α : Type} (S : SIMDTypes α)
    (fin : GaussianFinalizer) (v : List α) (k : Nat)
    (hN : v.length = 2 ^ k) (hc : v.length / 2 / S.ratio < 2 ^ 31) :
    ∃ out, fin.apply S v = .ok out ∧
      RegisterInterleaved S.ratio (S.lane_x fin.use_lowprec_) (S.lane_y fin.use_lowprec_) v out ∧
      (S.ratio = 1 →
        ElementInterleaved (S.lane_x fin.use_lowprec_) (S.lane_y fin.use_lowprec_) v out) := by
  have hcnt : u32 ((v.length >>> 1) / S.ratio) = v.length / 2 / S.ratio := by
    simp only [u32, Nat.shiftRight_eq_div_pow, pow_one]
    exact Nat.mod_eq_of_lt (Nat.lt_trans hc (by decide))
  have hfit : 2 * (v.length / 2 / S.ratio * S.ratio) ≤ v.length := by
    have h1 := Nat.div_mul_le_self (v.length / 2) S.ratio
    omega
  obtain ⟨hl, hhigh, hmid⟩ := GaussianFinalizer.loop_spec S fin.use_lowprec_
    (v.length / 2 / S.ratio) v hc hfit
  have hreg : RegisterInterleaved S.ratio (S.lane_x fin.use_lowprec_)
      (S.lane_y fin.use_lowprec_) v
      (GaussianFinalizer.loop S fin.use_lowprec_ (v.length / 2 / S.ratio) v) := by
    refine ⟨hl, ?_, ?_⟩
    · intro b j hb hj
      have e1 : 2 * b * S.ratio + j = 2 * (b * S.ratio) + j := by ring
      have e2 : (2 * b + 1) * S.ratio + j = 2 * (b * S.ratio) + S.ratio + j := by ring
      rw [e1, e2]
      exact hmid b j hb hj
    · intro p hp
      exact hhigh p (by rw [Nat.mul_assoc] at hp; exact hp)
  refine ⟨GaussianFinalizer.loop S fin.use_lowprec_ (v.length / 2 / S.ratio) v, ?_, hreg, ?_⟩
  · unfold GaussianFinalizer.apply
    rw [hN, notPow2Test_two_pow, ← hN, hcnt]
    rfl
  · intro h1 i hi
    have hb : i < v.length / 2 / S.ratio := by
      rw [h1, Nat.div_one]
      exact hi
    have := hreg.2.1 i 0 hb (by omega)
    simpa [h1] using this

/-- Witness of `GaussianFinalizer.apply_register_layout`: eight elements in registers of two. -/
theorem GaussianFinalizer.apply_register_layout_witness :
    ([0, 1, 2, 3, 4, 5, 6, 7] : List ℚ).length = 2 ^ 3 ∧
    ([0, 1, 2, 3, 4, 5, 6, 7] : List ℚ).length / 2 / (ratSimd 2).ratio < 2 ^ 31 ∧
    ∃ out, GaussianFinalizer.apply (ratSimd 2) { use_lowprec_ := true }
        [0, 1, 2, 3, 4, 5, 6, 7] = .ok out ∧
      RegisterInterleaved (ratSimd 2).ratio ((ratSimd 2).lane_x true) ((ratSimd 2).lane_y true)
        [0, 1, 2, 3, 4, 5, 6, 7] out ∧
      ((ratSimd 2).ratio = 1 →
        ElementInterleaved ((ratSimd 2).lane_x true) ((ratSimd 2).lane_y true)
          [0, 1, 2, 3, 4, 5, 6, 7] out) :=
  ⟨by decide, by decide,
    GaussianFinalizer.apply_register_layout (ratSimd 2) { use_lowprec_ := true }
      [0, 1, 2, 3, 4, 5, 6, 7] 3 (by decide) (by decide)⟩

/-- C1 as stated fails: with two elements per register the four-element buffer
`[0, 0, 0, 0]` becomes `[0, 0, 1, 1]` (component `x` of both elements, then component `y`
of both), which is not the element-wise interleaving `out[2i] = cos`, `out[2i+1] = sin`,
whichever of the two components of the primitive is the cosine. -/
theorem GaussianFinalizer.apply_not_element_interleaved :
    GaussianFinalizer.apply (ratSimd 2) { use_lowprec_ := false } [0, 0, 0, 0]
      = .ok [0, 0, 1, 1] ∧
    ¬ ElementInterleaved (ratSimd 2).u10_y (ratSimd 2).u10_x [0, 0, 0, 0] [0, 0, 1, 1] ∧
    ¬ ElementInterleaved (ratSimd 2).u10_x (ratSimd 2).u10_y [0, 0, 0, 0] [0, 0, 1, 1] := by
  refine ⟨by decide!, ?_, ?_⟩
  · intro h
    have h0 := (h 0 (by decide)).1
    revert h0
    decide!
  · intro h
    have h0 := (h 0 (by decide)).2
    revert h0
    decide!

/-! ## Claims on the construction of `Kernel` -/

theorem Kernel.max_div_eq (s p : Nat) (hp : 0 < p) :
    max s p / p = max 1 (s / p) := by
  rcases Nat.lt_or_ge p s with hlt | hge
  · have h1 : max s p = s := Nat.max_eq_left (Nat.le_of_lt hlt)
    have h2 : 1 ≤ s / p := (Nat.one_le_div_iff hp).2 (Nat.le_of_lt hlt)
    rw [h1, Nat.max_eq_right h2]
  · have h1 : max s p = p := Nat.max_eq_right hge
    rw [h1, Nat.div_self hp]
    rcases Nat.lt_or_ge s p with hlt | hge2
    · rw [Nat.div_eq_of_lt hlt]
      rfl
    · have : s = p := Nat.le_antisymm hge hge2
      rw [this, Nat.div_self hp]
      rfl

/-- C3: whenever the constructor of `Kernel` succeeds for an input size `≥ 1`, it has built
`max(1, stacked_size / p)` blocks, `p` being the padded input size; and for stacked size 8
and input size 4 it succeeds with 2 blocks, whatever the other arguments. -/
theorem Kernel.mk?_block_count {α : Type} (F : FloatOps α) (P : Spinner α) :
    (∀ (s n : Nat) (sigma : α) (seed : Nat) (lp : Bool) (K : Kernel α), 1 ≤ n →
      Kernel.mk? F P s n sigma seed lp = .ok K →
      K.blocks_.length = max 1 (s / roundup n)) ∧
    (∀ (sigma : α) (seed : Nat) (lp : Bool),
      ∃ K, Kernel.mk? F P 8 4 sigma seed lp = .ok K ∧ K.blocks_.length = 2) := by
  constructor
  · intro s n sigma seed lp K _ hK
    rcases Kernel.mk?_cases F P s n sigma seed lp with ⟨_, he⟩ | ⟨hm, K2, hK2, hlen, _, _⟩
    · rw [he] at hK
      cases hK
    · rw [hK2] at hK
      cases hK
      rw [hlen]
      exact Kernel.max_div_eq s (roundup n) (roundup_pos n)
  · intro sigma seed lp
    rcases Kernel.mk?_cases F P 8 4 sigma seed lp with ⟨hm, _⟩ | ⟨_, K2, hK2, hlen, _, _⟩
    · exact absurd (by decide) hm
    · exact ⟨K2, hK2, by rw [hlen]; decide⟩

/-- Witness of `Kernel.mk?_block_count`: stacked size 12 over input size 3 (padded to 4). -/
theorem Kernel.mk?_block_count_witness :
    ∃ K, 1 ≤ 3 ∧ Kernel.mk? ratOps ratSpinner 12 3 1 42 false = .ok K ∧
      K.blocks_.length = max 1 (12 / roundup 3) ∧ K.blocks_.length = 3 := by
  rcases Kernel.mk?_cases ratOps ratSpinner 12 3 1 42 false with ⟨hm, _⟩ | ⟨_, K, hK, _⟩
  · exact absurd (by decide) hm
  · have h := (Kernel.mk?_block_count ratOps ratSpinner).1 12 3 1 42 false K (by decide) hK
    exact ⟨K, by decide, hK, h, by rw [h]; decide⟩

/-- C4: for an input size `≥ 1` with padded size `p`, the constructor of `Kernel` ends in
the fatal "not evenly divisible" error exactly when `max(stacked_size, p)` is not a
multiple of `p`: in that case the adjustment replaces the stacked size by
`p - (stacked mod p)`, again not a multiple; otherwise construction succeeds with blocks
that cover `max(stacked_size, p)` exactly. -/
theorem Kernel.mk?_configuration_error_iff {α : Type} (F : FloatOps α) (P : Spinner α)
    (s n : Nat) (sigma : α) (seed : Nat) (lp : Bool) (_hn : 1 ≤ n) :
    (Kernel.mk? F P s n sigma seed lp = .error .notEvenlyDivisible ↔
      max s (roundup n) % roundup n ≠ 0) ∧
    (max s (roundup n) % roundup n ≠ 0 →
      Kernel.adjustStacked s (roundup n) = roundup n - max s (roundup n) % roundup n ∧
      Kernel.adjustStacked s (roundup n) % roundup n ≠ 0) ∧
    (max s (roundup n) % roundup n = 0 →
      ∃ K, Kernel.mk? F P s n sigma seed lp = .ok K ∧
        K.blocks_.length * roundup n = max s (roundup n)) := by
  have hcases := Kernel.mk?_cases F P s n sigma seed lp
  refine ⟨?_, ?_, ?_⟩
  · constructor
    · intro he
      rcases hcases with ⟨hm, _⟩ | ⟨_, K, hK, _⟩
      · exact hm
      · rw [hK] at he
        cases he
    · intro hm
      rcases hcases with ⟨_, he⟩ | ⟨hm2, _⟩
      · exact he
      · exact absurd hm2 hm
  · intro hm
    refine ⟨?_, (Kernel.adjustStacked_mod s (roundup n) (roundup_pos n)).1.2 hm⟩
    simp [Kernel.adjustStacked, hm]
  · intro hm
    rcases hcases with ⟨hm2, _⟩ | ⟨_, K, hK, hlen, _, _⟩
    · exact absurd hm hm2
    · refine ⟨K, hK, ?_⟩
      rw [hlen]
      exact Nat.div_mul_cancel (Nat.dvd_of_mod_eq_zero hm)

/-- Witness of `Kernel.mk?_configuration_error_iff`: stacked size 9 over input size 4
is refused, the adjustment having replaced 9 by 3. -/
theorem Kernel.mk?_configuration_error_iff_witness :
    1 ≤ 4 ∧
    Kernel.mk? ratOps ratSpinner 9 4 1 42 false = .error .notEvenlyDivisible ∧
    Kernel.adjustStacked 9 (roundup 4) = 3 := by
  have h := Kernel.mk?_configuration_error_iff ratOps ratSpinner 9 4 1 42 false (by decide)
  exact ⟨by decide, h.1.2 (by decide), by decide⟩

/-- C6, as the code has it: for every input size `≥ 1`, a power of two or not, the
constructor of `Kernel` never fails on a dimension check. It pads the input size to the
power of two `p = roundup(input_size) ≥ input_size`; when `max(stacked_size, p)` is not a
multiple of `p` it ends in the "not evenly divisible" error, and otherwise it succeeds and
builds `max(1, stacked_size / p)` blocks, each of size `p`. -/
theorem Kernel.mk?_pads_input_size {α : Type} (F : FloatOps α) (P : Spinner α)
    (s n : Nat) (sigma : α) (seed : Nat) (lp : Bool) (_hn : 1 ≤ n) :
    (∃ k, roundup n = 2 ^ k ∧ n ≤ roundup n) ∧
    (max s (roundup n) % roundup n ≠ 0 →
      Kernel.mk? F P s n sigma seed lp = .error .notEvenlyDivisible) ∧
    (max s (roundup n) % roundup n = 0 →
      ∃ K, Kernel.mk? F P s n sigma seed lp = .ok K ∧
        K.blocks_.length = max 1 (s / roundup n) ∧
        ∀ b ∈ K.blocks_, b.final_output_size_ = roundup n) ∧
    Kernel.mk? F P s n sigma seed lp ≠ .error .blockNotPow2 ∧
    Kernel.mk? F P s n sigma seed lp ≠ .error .hadamardNotPow2 ∧
    Kernel.mk? F P s n sigma seed lp ≠ .error .finalizerNotPow2 := by
  obtain ⟨k, hk, hle, -⟩ := roundup_spec n
  refine ⟨⟨k, hk, by rw [hk]; exact hle⟩, ?_⟩
  rcases Kernel.mk?_cases F P s n sigma seed lp with ⟨hm, he⟩ | ⟨hm, K, hK, hlen, _, hb⟩
  · refine ⟨fun _ => he, fun h0 => absurd h0 hm, ?_, ?_, ?_⟩ <;>
      · rw [he]
        intro h
        cases h
  · refine ⟨fun hne => absurd hm hne, fun _ => ⟨K, hK, ?_, hb⟩, ?_, ?_, ?_⟩
    · rw [hlen]
      exact Kernel.max_div_eq s (roundup n) (roundup_pos n)
    all_goals
      rw [hK]
      intro h
      cases h

/-- Witness of `Kernel.mk?_pads_input_size`: input size 5 is padded to 8; stacked size 16
gives two blocks of size 8, stacked size 9 is refused as not evenly divisible. -/
theorem Kernel.mk?_pads_input_size_witness :
    1 ≤ 5 ∧ roundup 5 = 8 ∧
    (∃ K, Kernel.mk? ratOps ratSpinner 16 5 1 42 false = .ok K ∧
      K.blocks_.length = max 1 (16 / roundup 5) ∧
      ∀ b ∈ K.blocks_, b.final_output_size_ = roundup 5) ∧
    Kernel.mk? ratOps ratSpinner 9 5 1 42 false = .error .notEvenlyDivisible :=
  ⟨by decide, by decide,
    (Kernel.mk?_pads_input_size ratOps ratSpinner 16 5 1 42 false (by decide)).2.2.1
      (by decide),
    (Kernel.mk?_pads_input_size ratOps ratSpinner 9 5 1 42 false (by decide)).2.1
      (by decide)⟩

/-- C6 as stated fails: input size 5 is not a power of two, yet construction with stacked
size 8 succeeds, with one block of the padded size 8. -/
theorem Kernel.mk?_input_five_succeeds :
    isPowerOfTwo 5 = false ∧
    (Kernel.mk? ratOps ratSpinner 8 5 1 42 false).toOption.map
      (fun K => K.blocks_.map (fun b => b.final_output_size_)) = some [8] := by
  constructor <;> decide

/-! ## Claims on `FastFoodKernelBlock::apply` -/

theorem subvector_error {α : Type} (v : List α) (index size : Nat) (e : Err)
    (h : subvector v index size = .error e) : e = .invalidSubvector := by
  unfold subvector at h
  by_cases hc : index + size ≤ v.length
  · rw [if_pos hc] at h
    cases h
  · rw [if_neg hc] at h
    cases h
    rfl

theorem FastFoodKernelBlock.fill_error {α : Type} (F : FloatOps α) (out inp : List α)
    (e : Err) (h : FastFoodKernelBlock.fill F out inp = .error e) : e = .invalidSubvector := by
  unfold FastFoodKernelBlock.fill at h
  cases hs : subvector (List.replicate out.length F.zero) 0 inp.length with
  | error e2 =>
    simp only [hs] at h
    cases h
    exact subvector_error _ _ _ _ hs
  | ok a =>
    simp only [hs] at h
    cases h

/-- An input whose padded length is not the configured dimension is refused. -/
theorem FastFoodKernelBlock.apply_wrong_size {α : Type} (F : FloatOps α) (P : Spinner α)
    (b : FastFoodKernelBlock α) (out inp : List α)
    (h : roundup inp.length ≠ b.transform_size) : b.apply F P out inp = .error .zomg := by
  unfold FastFoodKernelBlock.apply
  rw [if_pos h]

/-- C7: `FastFoodKernelBlock::apply(out, in)` throws its size error ("ZOMG") exactly when
the length of `in`, padded to a power of two, differs from the configured dimension. -/
theorem FastFoodKernelBlock.apply_zomg_iff {α : Type} (F : FloatOps α) (P : Spinner α)
    (b : FastFoodKernelBlock α) (out inp : List α) :
    b.apply F P out inp = .error .zomg ↔ roundup inp.length ≠ b.transform_size := by
  constructor
  · intro hcontra h
    unfold FastFoodKernelBlock.apply at hcontra
    simp only [h, ne_eq, not_true_eq_false, ite_false] at hcontra
    cases hf : FastFoodKernelBlock.fill F out inp with
    | error e =>
      simp only [hf] at hcontra
      cases hcontra
      have := FastFoodKernelBlock.fill_error F out inp _ hf
      cases this
    | ok out1 =>
      simp only [hf] at hcontra
      cases hs : subvector out1 0 b.transform_size with
      | error e =>
        simp only [hs] at hcontra
        cases hcontra
        have := subvector_error _ _ _ _ hs
        cases this
      | ok hv =>
        simp only [hs] at hcontra
        cases hcontra
  · exact FastFoodKernelBlock.apply_wrong_size F P b out inp

theorem SpinTransformer.length_apply_chain {α : Type} (P : Spinner α) (tx : SpinTransformer α)
    (buf : List α) : (tx.apply P buf).length = buf.length := by
  simp [SpinTransformer.apply]

theorem FastFoodKernelBlock.fill_eq {α : Type} (F : FloatOps α) (out inp : List α)
    (hle : inp.length ≤ out.length) :
    FastFoodKernelBlock.fill F out inp
      = .ok (inp ++ List.replicate (out.length - inp.length) F.zero) := by
  unfold FastFoodKernelBlock.fill subvector
  have h1 : 0 + inp.length ≤ (List.replicate out.length F.zero).length := by
    simp only [List.length_replicate]
    omega
  simp only [h1, if_true]
  rw [storeAt_eq_append inp _ 0 h1]
  simp

theorem FastFoodKernelBlock.half_vector_eq {α : Type} (F : FloatOps α) (inp : List α)
    (n d : Nat) (hle : inp.length ≤ d) (hdn : d ≤ n) :
    subvector (inp ++ List.replicate (n - inp.length) F.zero) 0 d
      = .ok (inp ++ List.replicate (d - inp.length) F.zero) := by
  unfold subvector
  have h1 : 0 + d ≤ (inp ++ List.replicate (n - inp.length) F.zero).length := by
    simp only [List.length_append, List.length_replicate]
    omega
  rw [if_pos h1]
  have h2 : min (d - inp.length) (n - inp.length) = d - inp.length := by omega
  simp [List.take_append_eq_append_take, List.take_of_length_le hle, List.take_replicate, h2]

/-- The result of `FastFoodKernelBlock::apply` on an input of the right padded length. -/
theorem FastFoodKernelBlock.apply_eq {α : Type} (F : FloatOps α) (P : Spinner α)
    (b : FastFoodKernelBlock α) (out inp : List α)
    (hin : roundup inp.length = b.transform_size) (hout : b.transform_size ≤ out.length) :
    b.apply F P out inp
      = .ok (b.tx_.apply P (inp ++ List.replicate (b.transform_size - inp.length) F.zero) ++
        List.replicate (out.length - b.transform_size) F.zero) := by
  have hle : inp.length ≤ b.transform_size := by
    rw [← hin]
    exact le_roundup _
  have hlen : (inp ++ List.replicate (b.transform_size - inp.length) F.zero).length
      = b.transform_size := by
    simp only [List.length_append, List.length_replicate]
    omega
  unfold FastFoodKernelBlock.apply
  simp only [hin, ne_eq, not_true_eq_false, ite_false,
    FastFoodKernelBlock.fill_eq F out inp (Nat.le_trans hle hout),
    FastFoodKernelBlock.half_vector_eq F inp out.length b.transform_size hle hout]
  have h3 : 0 + (b.tx_.apply P
      (inp ++ List.replicate (b.transform_size - inp.length) F.zero)).length
      ≤ (inp ++ List.replicate (out.length - inp.length) F.zero).length := by
    simp only [SpinTransformer.length_apply_chain, List.length_append, List.length_replicate]
    omega
  rw [storeAt_eq_append _ _ 0 h3, SpinTransformer.length_apply_chain, hlen]
  have h4 : out.length - inp.length - (b.transform_size - inp.length)
      = out.length - b.transform_size := by omega
  simp [List.drop_append_eq_append_drop, List.drop_of_length_le hle, h4]

theorem FastFoodKernelBlock.apply_eq_length {α : Type} (F : FloatOps α) (P : Spinner α)
    (b : FastFoodKernelBlock α) (out inp : List α)
    (hin : roundup inp.length = b.transform_size) (hout : b.transform_size ≤ out.length) :
    ∃ res, b.apply F P out inp = .ok res ∧ res.length = out.length := by
  have hle : inp.length ≤ b.transform_size := by
    rw [← hin]
    exact le_roundup _
  refine ⟨_, FastFoodKernelBlock.apply_eq F P b out inp hin hout, ?_⟩
  simp only [List.length_append, SpinTransformer.length_apply_chain, List.length_replicate]
  omega

/-- C8: when the padded length of `in` is the configured dimension `d` and `out` has at
least `d` elements, `FastFoodKernelBlock::apply` runs the chain on a buffer of length `d`
that is `in` followed by `d - in.length` zeros, whatever `out` held; the result is the
chain's output followed by zeros, so every position at or beyond `d` is zero. -/
theorem FastFoodKernelBlock.apply_working_buffer {α : Type} (F : FloatOps α) (P : Spinner α)
    (b : FastFoodKernelBlock α) (out inp : List α)
    (hin : roundup inp.length = b.transform_size) (hout : b.transform_size ≤ out.length) :
    ∃ out1 half_vector,
      FastFoodKernelBlock.fill F out inp = .ok out1 ∧
      subvector out1 0 b.transform_size = .ok half_vector ∧
      half_vector.length = b.transform_size ∧
      half_vector = inp ++ List.replicate (b.transform_size - inp.length) F.zero ∧
      b.apply F P out inp = .ok (b.tx_.apply P half_vector ++
        List.replicate (out.length - b.transform_size) F.zero) ∧
      ∀ res, b.apply F P out inp = .ok res → res.length = out.length ∧
        ∀ j, b.transform_size ≤ j → j < out.length → res[j]? = some F.zero := by
  have hle : inp.length ≤ b.transform_size := by
    rw [← hin]
    exact le_roundup _
  have hlen : (inp ++ List.replicate (b.transform_size - inp.length) F.zero).length
      = b.transform_size := by
    simp only [List.length_append, List.length_replicate]
    omega
  have happly := FastFoodKernelBlock.apply_eq F P b out inp hin hout
  refine ⟨_, _, FastFoodKernelBlock.fill_eq F out inp (Nat.le_trans hle hout),
    FastFoodKernelBlock.half_vector_eq F inp out.length b.transform_size hle hout,
    hlen, rfl, happly, ?_⟩
  intro res hres
  rw [happly] at hres
  cases hres
  constructor
  · simp only [List.length_append, SpinTransformer.length_apply_chain, List.length_replicate, hlen]
    omega
  · intro j hj hjlt
    rw [List.getElem?_append_right (by simp only [SpinTransformer.length_apply_chain, hlen]; exact hj)]
    simp only [SpinTransformer.length_apply_chain, hlen]
    rw [List.getElem?_replicate]
    simp
    omega

/-- Witness of `FastFoodKernelBlock.apply_working_buffer`: a block of dimension 4, an input
of three elements and an `out` of six elements holding nines. -/
theorem FastFoodKernelBlock.apply_working_buffer_witness :
    ∃ b, FastFoodKernelBlock.mk? ratOps ratSpinner 4 1 42 true = .ok b ∧
      roundup ([1, 2, 3] : List ℚ).length = b.transform_size ∧
      b.transform_size ≤ ([9, 9, 9, 9, 9, 9] : List ℚ).length ∧
      ∃ out1 half_vector,
        FastFoodKernelBlock.fill ratOps [9, 9, 9, 9, 9, 9] [1, 2, 3] = .ok out1 ∧
        subvector out1 0 b.transform_size = .ok half_vector ∧
        half_vector.length = b.transform_size ∧
        half_vector = [1, 2, 3] ++ List.replicate (b.transform_size - 3) ratOps.zero ∧
        b.apply ratOps ratSpinner [9, 9, 9, 9, 9, 9] [1, 2, 3]
          = .ok (b.tx_.apply ratSpinner half_vector ++
            List.replicate (6 - b.transform_size) ratOps.zero) ∧
        ∀ res, b.apply ratOps ratSpinner [9, 9, 9, 9, 9, 9] [1, 2, 3] = .ok res →
          res.length = 6 ∧
          ∀ j, b.transform_size ≤ j → j < 6 → res[j]? = some ratOps.zero := by
  obtain ⟨b, hb, hsz⟩ := FastFoodKernelBlock.mk?_two_pow ratOps ratSpinner 2 1 42 true
  have hts : b.transform_size = 4 := hsz
  have h1 : roundup ([1, 2, 3] : List ℚ).length = b.transform_size := by
    rw [hts]
    decide
  have h2 : b.transform_size ≤ ([9, 9, 9, 9, 9, 9] : List ℚ).length := by
    rw [hts]
    decide
  exact ⟨b, hb, h1, h2,
    FastFoodKernelBlock.apply_working_buffer ratOps ratSpinner b [9, 9, 9, 9, 9, 9] [1, 2, 3]
      h1 h2⟩

/-! ## Claims on `Kernel::apply` -/

theorem Kernel.applyBlocks_length {α : Type} (F : FloatOps α) (P : Spinner α)
    (S : SIMDTypes α) (fin : GaussianFinalizer) (inp : List α) (in_rounded : Nat)
    (bs : List (FastFoodKernelBlock α)) : ∀ (i : Nat) (out r : List α),
    Kernel.applyBlocks F P S fin inp in_rounded bs i out = .ok r → r.length = out.length := by
  induction bs with
  | nil =>
    intro i out r h
    simp only [Kernel.applyBlocks] at h
    cases h
    rfl
  | cons b rest ih =>
    intro i out r h
    simp only [Kernel.applyBlocks] at h
    cases hs : subvector out (Kernel.svArgs in_rounded i).1 (Kernel.svArgs in_rounded i).2 with
    | error e =>
      simp only [hs] at h
      cases h
    | ok sv =>
      simp only [hs] at h
      cases ha : b.apply F P sv inp with
      | error e =>
        simp only [ha] at h
        cases h
      | ok sv1 =>
        simp only [ha] at h
        cases hf : fin.apply S sv1 with
        | error e =>
          simp only [hf] at h
          cases h
        | ok sv2 =>
          simp only [hf] at h
          rw [ih _ _ _ h, storeAt_length]

theorem Kernel.applyBlocks_head {α : Type} (F : FloatOps α) (P : Spinner α)
    (S : SIMDTypes α) (fin : GaussianFinalizer) (inp : List α) (in_rounded : Nat)
    (b : FastFoodKernelBlock α) (rest : List (FastFoodKernelBlock α)) (i : Nat)
    (out r : List α)
    (h : Kernel.applyBlocks F P S fin inp in_rounded (b :: rest) i out = .ok r) :
    roundup inp.length = b.transform_size := by
  by_contra hne
  simp only [Kernel.applyBlocks] at h
  cases hs : subvector out (Kernel.svArgs in_rounded i).1 (Kernel.svArgs in_rounded i).2 with
  | error e =>
    simp only [hs] at h
    cases h
  | ok sv =>
    simp only [hs] at h
    rw [FastFoodKernelBlock.apply_wrong_size F P b sv inp hne] at h
    cases h

theorem Kernel.sizeOut_length {α : Type} (K : Kernel α) (fresh : Nat → α)
    (out : OutputType α) (inp data : List α) (h : K.sizeOut fresh out inp = .ok data) :
    data.length = (K.blocks_.length <<< 1) * roundup inp.length := by
  unfold Kernel.sizeOut at h
  by_cases hc : out.data.length = (K.blocks_.length <<< 1) * roundup inp.length
  · simp only [hc, ne_eq, not_true_eq_false, ite_false] at h
    cases h
    exact hc
  · cases hv : out.isView with
    | true =>
      simp [hc, hv] at h
    | false =>
      simp only [ne_eq, hc, not_false_eq_true, ite_true, hv] at h
      cases h
      simp [resize]

/-- The loop over the blocks succeeds when every block has the padded size of the input
and the buffer holds a segment of twice that size for every block still to apply. -/
theorem Kernel.applyBlocks_ok {α : Type} (F : FloatOps α) (P : Spinner α)
    (S : SIMDTypes α) (fin : GaussianFinalizer) (inp : List α) (k : Nat)
    (hin : roundup inp.length = 2 ^ k) (bs : List (FastFoodKernelBlock α)) :
    ∀ (i : Nat) (out : List α), (∀ b ∈ bs, b.transform_size = 2 ^ k) →
    2 * (2 ^ k * i) + 2 * (2 ^ k * bs.length) ≤ out.length →
    ∃ r, Kernel.applyBlocks F P S fin inp (2 ^ k) bs i out = .ok r := by
  induction bs with
  | nil =>
    intro i out _ _
    exact ⟨out, rfl⟩
  | cons b rest ih =>
    intro i out hb hlen
    have hidx : (2 ^ k <<< 1) * i = 2 * (2 ^ k * i) := by
      simp only [Nat.shiftLeft_eq, pow_one]
      ring
    have hsucc : 2 ^ k * (rest.length + 1) = 2 ^ k * rest.length + 2 ^ k := Nat.mul_succ _ _
    simp only [List.length_cons, hsucc] at hlen
    have hfit : 2 * (2 ^ k * i) + 2 ^ k ≤ out.length := by omega
    have hsub : subvector out (2 * (2 ^ k * i)) (2 ^ k)
        = .ok ((out.drop (2 * (2 ^ k * i))).take (2 ^ k)) := by
      unfold subvector
      rw [if_pos hfit]
    have hsvlen : ((out.drop (2 * (2 ^ k * i))).take (2 ^ k)).length = 2 ^ k := by
      simp only [List.length_take, List.length_drop]
      omega
    have hbts : b.transform_size = 2 ^ k := hb b (List.mem_cons_self _ _)
    obtain ⟨sv1, hsv1, hl1⟩ := FastFoodKernelBlock.apply_eq_length F P b
      ((out.drop (2 * (2 ^ k * i))).take (2 ^ k)) inp (by rw [hin, hbts])
      (by rw [hsvlen, hbts])
    have hfin : fin.apply S sv1
        = .ok (GaussianFinalizer.loop S fin.use_lowprec_ (u32 ((sv1.length >>> 1) / S.ratio))
          sv1) := by
      unfold GaussianFinalizer.apply
      rw [hl1, hsvlen, notPow2Test_two_pow]
      rfl
    have hmul : 2 ^ k * (i + 1) = 2 ^ k * i + 2 ^ k := Nat.mul_succ _ _
    obtain ⟨r, hr⟩ := ih (i + 1)
      (storeAt out (2 * (2 ^ k * i))
        (GaussianFinalizer.loop S fin.use_lowprec_ (u32 ((sv1.length >>> 1) / S.ratio)) sv1))
      (fun c hc => hb c (List.mem_cons_of_mem _ hc))
      (by rw [storeAt_length, hmul]; omega)
    refine ⟨r, ?_⟩
    simp only [Kernel.applyBlocks, Kernel.svArgs, hidx, hsub, hsv1, hfin]
    exact hr

/-- C5: for an ensemble built by the constructor (input size `≥ 1`, padded size `p`),
every successful `Kernel::apply` leaves `out` with exactly `block_count * 2 * p` elements.
For an input of padded length `p`, an owning `out` of another length is first resized to
that length and the call succeeds, while a view of another length makes the call fail at
the size check, before the loop over the blocks. For any input a view of another length
makes the call fail with a size error. -/
theorem Kernel.apply_length {α : Type} (F : FloatOps α) (P : Spinner α) (S : SIMDTypes α)
    (s n : Nat) (sigma : α) (seed : Nat) (lp : Bool) (K : Kernel α) (fresh : Nat → α)
    (out : OutputType α) (inp : List α) (_hn : 1 ≤ n)
    (hK : Kernel.mk? F P s n sigma seed lp = .ok K) :
    (∀ res, K.apply F P S fresh out inp = .ok res →
      roundup inp.length = roundup n ∧ res.length = K.blocks_.length * 2 * roundup n) ∧
    (roundup inp.length = roundup n → out.isView = false →
      out.data.length ≠ K.blocks_.length * 2 * roundup n →
      K.sizeOut fresh out inp
        = .ok (resize fresh out.data (K.blocks_.length * 2 * roundup n)) ∧
      (resize fresh out.data (K.blocks_.length * 2 * roundup n)).length
        = K.blocks_.length * 2 * roundup n ∧
      ∃ res, K.apply F P S fresh out inp = .ok res) ∧
    (out.isView = true →
      out.data.length ≠ K.blocks_.length * 2 * roundup n →
      (roundup inp.length = roundup n → K.sizeOut fresh out inp = .error .viewSize) ∧
      (K.apply F P S fresh out inp = .error .viewSize ∨
        K.apply F P S fresh out inp = .error .zomg)) := by
  have hshift : K.blocks_.length <<< 1 = K.blocks_.length * 2 := by
    simp [Nat.shiftLeft_eq]
  obtain ⟨k, hk, -, -⟩ := roundup_spec n
  have hvalid : K.blocks_ ≠ [] ∧ ∀ b ∈ K.blocks_, b.transform_size = roundup n := by
    rcases Kernel.mk?_cases F P s n sigma seed lp with ⟨_, he⟩ | ⟨hm, K2, hK2, hlen, _, hb⟩
    · rw [he] at hK
      cases hK
    · rw [hK2] at hK
      cases hK
      refine ⟨?_, hb⟩
      intro hnil
      have hpos : 0 < K.blocks_.length := by
        rw [hlen]
        exact Nat.div_pos (Nat.le_max_right _ _) (roundup_pos n)
      rw [hnil] at hpos
      cases hpos
  obtain ⟨hne, hbsz⟩ := hvalid
  refine ⟨?_, ?_, ?_⟩
  · intro res hres
    unfold Kernel.apply at hres
    cases hsz : K.sizeOut fresh out inp with
    | error e =>
      simp only [hsz] at hres
      cases hres
    | ok data =>
      simp only [hsz] at hres
      cases hab : Kernel.applyBlocks F P S K.finalizer_ inp (roundup inp.length)
          K.blocks_ 0 data with
      | error e =>
        simp only [hab] at hres
        cases hres
      | ok data1 =>
        simp only [hab] at hres
        cases hres
        have hlen1 := Kernel.applyBlocks_length F P S _ _ _ _ _ _ _ hab
        have hlen0 := Kernel.sizeOut_length K fresh out inp data hsz
        cases hbs : K.blocks_ with
        | nil => exact absurd hbs hne
        | cons b rest =>
          rw [hbs] at hab
          have hhead := Kernel.applyBlocks_head F P S _ _ _ b rest _ _ _ hab
          have hin : roundup inp.length = roundup n := by
            rw [hhead]
            exact hbsz b (by rw [hbs]; exact List.mem_cons_self _ _)
          refine ⟨hin, ?_⟩
          simp only [blockmul, List.length_map]
          rw [hlen1, hlen0, hshift, hbs, hin]
  · intro hin hv hlen
    have hne2 : out.data.length ≠ (K.blocks_.length <<< 1) * roundup inp.length := by
      rw [hshift, hin]
      exact hlen
    have hsz : K.sizeOut fresh out inp
        = .ok (resize fresh out.data (K.blocks_.length * 2 * roundup n)) := by
      unfold Kernel.sizeOut
      rw [if_pos hne2, hv, hshift, hin]
      rfl
    have hrl : (resize fresh out.data (K.blocks_.length * 2 * roundup n)).length
        = K.blocks_.length * 2 * roundup n := by
      simp [resize]
    refine ⟨hsz, hrl, ?_⟩
    obtain ⟨r, hr⟩ := Kernel.applyBlocks_ok F P S K.finalizer_ inp k (by rw [hin, hk])
      K.blocks_ 0 (resize fresh out.data (K.blocks_.length * 2 * roundup n))
      (by rw [← hk]; exact hbsz)
      (by
        rw [hrl, hk]
        have : K.blocks_.length * 2 * 2 ^ k = 2 * (2 ^ k * K.blocks_.length) := by ring
        omega)
    refine ⟨blockmul F r (F.div F.one (F.sqrt (F.ofNat (r.length >>> 1)))), ?_⟩
    unfold Kernel.apply
    rw [hsz, hin]
    rw [hk] at hr ⊢
    simp only [hr]
  · intro hv hlen
    have hview : ∀ (_ : out.data.length ≠ (K.blocks_.length <<< 1) * roundup inp.length),
        K.sizeOut fresh out inp = .error .viewSize := by
      intro hne2
      unfold Kernel.sizeOut
      simp [hne2, hv]
    constructor
    · intro hin
      exact hview (by rw [hshift, hin]; exact hlen)
    · by_cases hne2 : out.data.length = (K.blocks_.length <<< 1) * roundup inp.length
      · right
        have hin : roundup inp.length ≠ roundup n := by
          intro hin
          rw [hshift, hin] at hne2
          exact hlen hne2
        have hsz : K.sizeOut fresh out inp = .ok out.data := by
          unfold Kernel.sizeOut
          simp [hne2]
        cases hbs : K.blocks_ with
        | nil => exact absurd hbs hne
        | cons b rest =>
          have hbts : b.transform_size = roundup n :=
            hbsz b (by rw [hbs]; exact List.mem_cons_self _ _)
          have hfit : (roundup inp.length <<< 1) * 0 + roundup inp.length
              ≤ out.data.length := by
            rw [hne2, hshift, hbs, List.length_cons, Nat.mul_zero, Nat.zero_add]
            exact Nat.le_mul_of_pos_left _ (by omega)
          have hsub : subvector out.data (Kernel.svArgs (roundup inp.length) 0).1
              (Kernel.svArgs (roundup inp.length) 0).2
              = .ok ((out.data.drop ((roundup inp.length <<< 1) * 0)).take
                (roundup inp.length)) := by
            unfold subvector Kernel.svArgs
            rw [if_pos hfit]
          have hz := FastFoodKernelBlock.apply_wrong_size F P b
            ((out.data.drop ((roundup inp.length <<< 1) * 0)).take (roundup inp.length))
            inp (by rw [hbts]; exact hin)
          unfold Kernel.apply
          rw [hsz]
          simp only [hbs, Kernel.applyBlocks, hsub, hz]
      · left
        unfold Kernel.apply
        rw [hview hne2]

/-- Witness of `Kernel.apply_length`: the ensemble built from stacked size 4 and input
size 4, applied to a view of eight elements. -/
theorem Kernel.apply_length_witness :
    1 ≤ 4 ∧ Kernel.mk? ratOps ratSpinner 4 4 1 42 false = .ok ratKernel ∧
    Kernel.apply ratOps ratSpinner (ratSimd 1) ratKernel (fun _ => 0)
      { isView := true, data := [9, 9, 9, 9, 9, 9, 9, 9] } [0, 0, 0, 0]
      = .ok [0, 1 / 2, 0, 1 / 2, 9 / 2, 9 / 2, 9 / 2, 9 / 2] ∧
    ([0, 1 / 2, 0, 1 / 2, 9 / 2, 9 / 2, 9 / 2, 9 / 2] : List ℚ).length
      = ratKernel.blocks_.length * 2 * roundup 4 := by
  have hK : Kernel.mk? ratOps ratSpinner 4 4 1 42 false = .ok ratKernel := by decide!
  have hres : Kernel.apply ratOps ratSpinner (ratSimd 1) ratKernel (fun _ => 0)
      { isView := true, data := [9, 9, 9, 9, 9, 9, 9, 9] } [0, 0, 0, 0]
      = .ok [0, 1 / 2, 0, 1 / 2, 9 / 2, 9 / 2, 9 / 2, 9 / 2] := by decide!
  exact ⟨by decide, hK, hres,
    ((Kernel.apply_length ratOps ratSpinner (ratSimd 1) 4 4 1 42 false ratKernel (fun _ => 0)
      { isView := true, data := [9, 9, 9, 9, 9, 9, 9, 9] } [0, 0, 0, 0] (by decide) hK).1
      _ hres).2⟩

/-- C2, evaluated on the code: the view taken for block `i` starts at `2 * p * i` but has
`p` elements, not `2 * p`. For `p = 4` the view of block 1 is `(8, 4)`, and on the
ensemble of one block of dimension 4 the call leaves positions 4 to 7 of `out` with what
they held before (nine) times the final factor `1/2`: no block or finalizer wrote them. -/
theorem Kernel.svArgs_covers_half_segment :
    (∀ p i, Kernel.svArgs p i = (2 * p * i, p)) ∧
    Kernel.svArgs 4 1 = (8, 4) ∧
    Kernel.mk? ratOps ratSpinner 4 4 1 42 false = .ok ratKernel ∧
    Kernel.apply ratOps ratSpinner (ratSimd 1) ratKernel (fun _ => 0)
      { isView := true, data := [9, 9, 9, 9, 9, 9, 9, 9] } [0, 0, 0, 0]
      = .ok [0, 1 / 2, 0, 1 / 2, 9 / 2, 9 / 2, 9 / 2, 9 / 2] := by
  refine ⟨?_, by decide, by decide!, by decide!⟩
  intro p i
  simp only [Kernel.svArgs, Nat.shiftLeft_eq, pow_one]
  rw [Nat.mul_comm p 2]

/-- C10, evaluated on the code: the same ensemble and the same input give different
results on two output buffers that differ only in what positions 4 to 7 held before. -/
theorem Kernel.apply_depends_on_prior_out :
    Kernel.mk? ratOps ratSpinner 4 4 1 42 false = .ok ratKernel ∧
    Kernel.apply ratOps ratSpinner (ratSimd 1) ratKernel (fun _ => 0)
      { isView := true, data := [0, 0, 0, 0, 1, 1, 1, 1] } [0, 0, 0, 0]
      = .ok [0, 1 / 2, 0, 1 / 2, 1 / 2, 1 / 2, 1 / 2, 1 / 2] ∧
    Kernel.apply ratOps ratSpinner (ratSimd 1) ratKernel (fun _ => 0)
      { isView := true, data := [0, 0, 0, 0, 2, 2, 2, 2] } [0, 0, 0, 0]
      = .ok [0, 1 / 2, 0, 1 / 2, 1, 1, 1, 1] ∧
    Kernel.apply ratOps ratSpinner (ratSimd 1) ratKernel (fun _ => 0)
      { isView := true, data := [0, 0, 0, 0, 1, 1, 1, 1] } [0, 0, 0, 0]
      ≠ Kernel.apply ratOps ratSpinner (ratSimd 1) ratKernel (fun _ => 0)
      { isView := true, data := [0, 0, 0, 0, 2, 2, 2, 2] } [0, 0, 0, 0] := by
  refine ⟨by decide!, by decide!, by decide!, by decide!⟩

/-! ## Claims on the construction of `FastFoodKernelBlock` -/

theorem FastFoodKernelBlock.initChain_two_pow {α : Type} (P : Spinner α) (k : Nat)
    (sigma : α) (seed : Nat) (renorm : Bool) :
    ∃ tx0, FastFoodKernelBlock.initChain P (2 ^ k) sigma seed renorm = .ok tx0 := by
  have h1 : isPowerOfTwo (2 ^ k) = true := (isPowerOfTwo_iff _).2 ⟨k, rfl⟩
  simp [FastFoodKernelBlock.initChain, HadamardBlock.mk?, h1]

/-- C9, as the code has it: the stage rescaled after construction is the chi-derived
scaling diagonal (`RandomScalingBlock`, stage 2): its values are the constructed ones times
`1/√(vec_norm of the unit-Gaussian diagonal)`. Every other stage, the Gaussian-product
stage 1 included, is exactly as constructed. -/
theorem FastFoodKernelBlock.mk?_rescales_scaling_block {α : Type} (F : FloatOps α)
    (P : Spinner α) (size : Nat) (sigma : α) (seed : Nat) (renorm : Bool)
    (tx0 : SpinTransformer α) (b : FastFoodKernelBlock α)
    (h0 : FastFoodKernelBlock.initChain P size sigma seed renorm = .ok tx0)
    (hb : FastFoodKernelBlock.mk? F P size sigma seed renorm = .ok b) :
    b.tx_.rsb.vals
      = tx0.rsb.vals.map (fun v => F.mul v (F.div F.one (F.sqrt (P.vec_norm tx0.gm.vals)))) ∧
    b.tx_.gaussProd = tx0.gaussProd ∧
    b.tx_.hadamard1 = tx0.hadamard1 ∧
    b.tx_.gm = tx0.gm ∧
    b.tx_.shuffler = tx0.shuffler ∧
    b.tx_.hadamard2 = tx0.hadamard2 ∧
    b.tx_.radem = tx0.radem := by
  unfold FastFoodKernelBlock.mk? at hb
  rw [h0] at hb
  by_cases ht : notPow2Test size = true
  · simp [ht] at hb
  · simp only [ht] at hb
    cases hb
    exact ⟨rfl, rfl, rfl, rfl, rfl, rfl, rfl⟩

/-- Witness of `FastFoodKernelBlock.mk?_rescales_scaling_block`: size 4, sigma 1, seed 42. -/
theorem FastFoodKernelBlock.mk?_rescales_scaling_block_witness :
    ∃ tx0 b,
      FastFoodKernelBlock.initChain ratSpinner 4 1 42 true = .ok tx0 ∧
      FastFoodKernelBlock.mk? ratOps ratSpinner 4 1 42 true = .ok b ∧
      b.tx_.rsb.vals = tx0.rsb.vals.map
        (fun v => ratOps.mul v (ratOps.div ratOps.one
          (ratOps.sqrt (ratSpinner.vec_norm tx0.gm.vals)))) ∧
      b.tx_.gaussProd = tx0.gaussProd ∧
      b.tx_.hadamard1 = tx0.hadamard1 ∧
      b.tx_.gm = tx0.gm ∧
      b.tx_.shuffler = tx0.shuffler ∧
      b.tx_.hadamard2 = tx0.hadamard2 ∧
      b.tx_.radem = tx0.radem := by
  obtain ⟨tx0, h0⟩ := FastFoodKernelBlock.initChain_two_pow ratSpinner 2 (1 : ℚ) 42 true
  obtain ⟨b, hb, _⟩ := FastFoodKernelBlock.mk?_two_pow ratOps ratSpinner 2 1 42 true
  exact ⟨tx0, b, h0, hb,
    FastFoodKernelBlock.mk?_rescales_scaling_block ratOps ratSpinner 4 1 42 true tx0 b h0 hb⟩

/-- C9 as stated fails: for size 4, sigma 1 and seed 42 the chain is constructed with
Gaussian-product parameter 1, scaling diagonal `[1, 1, 1, 1]` and unit-Gaussian diagonal
`[2, 2, 2, 2]`, so the factor is `1/2`; after construction the Gaussian-product parameter
is still 1 and the scaling diagonal is `[1/2, 1/2, 1/2, 1/2]`. -/
theorem FastFoodKernelBlock.mk?_gaussProd_not_rescaled :
    (FastFoodKernelBlock.initChain ratSpinner 4 (1 : ℚ) 42 true).toOption.map
      (fun t => (t.gaussProd.sigma, t.rsb.vals, t.gm.vals))
      = some (1, [1, 1, 1, 1], [2, 2, 2, 2]) ∧
    ratOps.div ratOps.one (ratOps.sqrt (ratSpinner.vec_norm [2, 2, 2, 2])) = 1 / 2 ∧
    (FastFoodKernelBlock.mk? ratOps ratSpinner 4 1 42 true).toOption.map
      (fun b => (b.tx_.gaussProd.sigma, b.tx_.rsb.vals))
      = some (1, [1 / 2, 1 / 2, 1 / 2, 1 / 2]) := by
  refine ⟨by decide!, by decide!, by decide!⟩

/-! ## Claims on the size check of `FastFoodKernelBlock` -/

theorem testBit_of_mem_Ico (k m : Nat) (h1 : 2 ^ k ≤ m) (h2 : m < 2 ^ (k + 1)) :
    m.testBit k = true := by
  have hm : m = 2 ^ k + (m - 2 ^ k) := by omega
  have hlt : m - 2 ^ k < 2 ^ k := by
    rw [Nat.pow_succ] at h2
    omega
  rw [hm, Nat.testBit_two_pow_add_eq, Nat.testBit_lt_two_pow hlt]
  rfl

/-- The test `n & (n - 1)` is nonzero on every nonzero `size_t` that is not a power of two. -/
theorem notPow2Test_of_not_two_pow (n : Nat) (h0 : n ≠ 0) (hlt : n < 2 ^ 64)
    (hnp : ¬ ∃ k, n = 2 ^ k) : notPow2Test n = true := by
  have hpred : u64 (n + (2 ^ 64 - 1)) = n - 1 := by
    unfold u64
    have : n + (2 ^ 64 - 1) = (n - 1) + 2 ^ 64 := by omega
    rw [this, Nat.add_mod_right]
    exact Nat.mod_eq_of_lt (by omega)
  have hlow : 2 ^ n.log2 ≤ n := Nat.log2_self_le h0
  have hhigh : n < 2 ^ (n.log2 + 1) := Nat.lt_log2_self
  have hne : n ≠ 2 ^ n.log2 := fun h => hnp ⟨n.log2, h⟩
  have hbit : (n &&& (n - 1)).testBit n.log2 = true := by
    rw [Nat.testBit_and, testBit_of_mem_Ico _ n hlow hhigh,
      testBit_of_mem_Ico _ (n - 1) (by omega) (by omega)]
    rfl
  have hnz : n &&& (n - 1) ≠ 0 := by
    intro hz
    rw [hz, Nat.zero_testBit] at hbit
    cases hbit
  unfold notPow2Test
  rw [hpred]
  simpa using hnz

theorem HadamardBlock.mk?_of_not_two_pow (size : Nat) (renorm : Bool)
    (hnp : ¬ ∃ k, size = 2 ^ k) : HadamardBlock.mk? size renorm = .error .hadamardNotPow2 := by
  have h : isPowerOfTwo size = false := by
    cases hb : isPowerOfTwo size with
    | false => rfl
    | true => exact absurd ((isPowerOfTwo_iff size).1 hb) hnp
  simp [HadamardBlock.mk?, h]

/-- C11: a size that is not a power of two (0 included) makes the constructor of
`FastFoodKernelBlock` fail with a dimension error; the constructor's own test
`size & (size - 1)` refuses every nonzero such size below `2 ^ 64` and lets 0 through,
which the constructor of the Hadamard stage refuses; on every power of two the test
passes and construction succeeds. -/
theorem FastFoodKernelBlock.mk?_refuses_non_powers {α : Type} (F : FloatOps α)
    (P : Spinner α) (sigma : α) (seed : Nat) (renorm : Bool) :
    (∀ size, (¬ ∃ k, size = 2 ^ k) →
      FastFoodKernelBlock.mk? F P size sigma seed renorm = .error .hadamardNotPow2 ∨
      FastFoodKernelBlock.mk? F P size sigma seed renorm = .error .blockNotPow2) ∧
    (∀ size, size ≠ 0 → size < 2 ^ 64 → (¬ ∃ k, size = 2 ^ k) → notPow2Test size = true) ∧
    notPow2Test 0 = false ∧
    (∀ k, notPow2Test (2 ^ k) = false ∧
      ∃ b, FastFoodKernelBlock.mk? F P (2 ^ k) sigma seed renorm = .ok b) := by
  refine ⟨?_, ?_, by decide, ?_⟩
  · intro size hnp
    left
    unfold FastFoodKernelBlock.mk? FastFoodKernelBlock.initChain
    rw [HadamardBlock.mk?_of_not_two_pow size renorm hnp]
  · intro size h0 hlt hnp
    exact notPow2Test_of_not_two_pow size h0 hlt hnp
  · intro k
    obtain ⟨b, hb, _⟩ := FastFoodKernelBlock.mk?_two_pow F P k sigma seed renorm
    exact ⟨notPow2Test_two_pow k, b, hb⟩

/-- Witness of `FastFoodKernelBlock.mk?_refuses_non_powers`: sizes 6 and 0 are refused,
size 6 also by the constructor's own test; size 4 is accepted. -/
theorem FastFoodKernelBlock.mk?_refuses_non_powers_witness :
    (FastFoodKernelBlock.mk? ratOps ratSpinner 6 1 42 true = .error .hadamardNotPow2 ∨
      FastFoodKernelBlock.mk? ratOps ratSpinner 6 1 42 true = .error .blockNotPow2) ∧
    (FastFoodKernelBlock.mk? ratOps ratSpinner 0 1 42 true = .error .hadamardNotPow2 ∨
      FastFoodKernelBlock.mk? ratOps ratSpinner 0 1 42 true = .error .blockNotPow2) ∧
    notPow2Test 6 = true ∧
    ∃ b, FastFoodKernelBlock.mk? ratOps ratSpinner (2 ^ 2) 1 42 true = .ok b := by
  have h := FastFoodKernelBlock.mk?_refuses_non_powers ratOps ratSpinner 1 42 true
  have h6 : ¬ ∃ k, 6 = 2 ^ k := fun hk => by
    have := (isPowerOfTwo_iff 6).2 hk
    revert this
    decide
  have h0 : ¬ ∃ k, 0 = 2 ^ k := fun hk => by
    have := (isPowerOfTwo_iff 0).2 hk
    revert this
    decide
  exact ⟨h.1 6 h6, h.1 0 h0, h.2.1 6 (by decide) (by decide) h6, (h.2.2.2 2).2⟩

/-- C18, evaluated on the code: a constructed block stores in `final_output_size_` (what
`transform_size()` returns) the very size it passed to both Hadamard stages, not twice that
size; for size 4 all three are 4. -/
theorem FastFoodKernelBlock.transform_size_is_hadamard_size :
    (∀ (α : Type) (F : FloatOps α) (P : Spinner α) (size : Nat) (sigma : α) (seed : Nat)
      (renorm : Bool) (b : FastFoodKernelBlock α),
      FastFoodKernelBlock.mk? F P size sigma seed renorm = .ok b →
      b.transform_size = size ∧ b.tx_.hadamard1.n = size ∧ b.tx_.hadamard2.n = size) ∧
    (FastFoodKernelBlock.mk? ratOps ratSpinner 4 1 42 true).toOption.map
      (fun b => (b.transform_size, b.tx_.hadamard1.n, b.tx_.hadamard2.n)) = some (4, 4, 4) ∧
    (FastFoodKernelBlock.mk? ratOps ratSpinner 4 1 42 true).toOption.map
      (fun b => decide (b.transform_size = 2 * b.tx_.hadamard1.n)) = some false := by
  refine ⟨?_, by decide, by decide⟩
  intro α F P size sigma seed renorm b hb
  unfold FastFoodKernelBlock.mk? FastFoodKernelBlock.initChain HadamardBlock.mk? at hb
  by_cases hp : isPowerOfTwo size = true
  · simp only [hp, if_true] at hb
    by_cases ht : notPow2Test size = true
    · simp [ht] at hb
    · simp only [ht] at hb
      cases hb
      exact ⟨rfl, rfl, rfl⟩
  · simp [hp] at hb

/-- Witness of `FastFoodKernelBlock.transform_size_is_hadamard_size`: size 8. -/
theorem FastFoodKernelBlock.transform_size_is_hadamard_size_witness :
    ∃ b, FastFoodKernelBlock.mk? ratOps ratSpinner (2 ^ 3) 1 42 true = .ok b ∧
      b.transform_size = 2 ^ 3 ∧ b.tx_.hadamard1.n = 2 ^ 3 ∧ b.tx_.hadamard2.n = 2 ^ 3 := by
  obtain ⟨b, hb, _⟩ := FastFoodKernelBlock.mk?_two_pow ratOps ratSpinner 3 1 42 true
  exact ⟨b, hb,
    FastFoodKernelBlock.transform_size_is_hadamard_size.1 ℚ ratOps ratSpinner (2 ^ 3) 1 42 true
      b hb⟩

/-! ## The finalizer against its out-of-place reading -/

/-- The out-of-place loop entered with `i` registers to expand: registers `2b` and `2b + 1`
of the result hold components `x` and `y` of register `b` of the source, for every `b < i`;
the rest of `out` is untouched. -/
theorem GaussianFinalizer.outOfPlaceLoop_spec {α : Type} (S : SIMDTypes α) (lp : Bool)
    (src : List α) (i : Nat) :
    ∀ (out : List α), out.length = src.length → 2 * (i * S.ratio) ≤ src.length →
    (GaussianFinalizer.outOfPlaceLoop S lp src i out).length = out.length ∧
    (∀ p, 2 * (i * S.ratio) ≤ p →
      (GaussianFinalizer.outOfPlaceLoop S lp src i out)[p]? = out[p]?) ∧
    (∀ b j, b < i → j < S.ratio →
      (GaussianFinalizer.outOfPlaceLoop S lp src i out)[2 * (b * S.ratio) + j]? =
        src[b * S.ratio + j]?.map (S.lane_x lp) ∧
      (GaussianFinalizer.outOfPlaceLoop S lp src i out)[2 * (b * S.ratio) + S.ratio + j]? =
        src[b * S.ratio + j]?.map (S.lane_y lp)) := by
  induction i with
  | zero =>
    intro out _ _
    refine ⟨rfl, fun p _ => rfl, ?_⟩
    intro b j hb
    omega
  | succ m ih =>
    intro out hlen hfit
    have hmul : (m + 1) * S.ratio = m * S.ratio + S.ratio := Nat.succ_mul m S.ratio
    rw [hmul] at hfit
    have hk1 : (2 * m + 1) * S.ratio = 2 * (m * S.ratio) + S.ratio := by ring
    have hk0 : 2 * m * S.ratio = 2 * (m * S.ratio) := by ring
    have hreg : (S.load src m).length = S.ratio := by
      simp only [SIMDTypes.load, List.length_take, List.length_drop]
      omega
    have hget : ∀ p, (S.store (S.store out (2 * m + 1)
          (if lp then S.sincos_u35 (S.load src m) else S.sincos_u10 (S.load src m)).y) (2 * m)
          (if lp then S.sincos_u35 (S.load src m) else S.sincos_u10 (S.load src m)).x)[p]? =
        if 2 * (m * S.ratio) ≤ p ∧ p < 2 * (m * S.ratio) + S.ratio then
          src[m * S.ratio + (p - 2 * (m * S.ratio))]?.map (S.lane_x lp)
        else if 2 * (m * S.ratio) + S.ratio ≤ p ∧ p < 2 * (m * S.ratio) + 2 * S.ratio then
          src[m * S.ratio + (p - (2 * (m * S.ratio) + S.ratio))]?.map (S.lane_y lp)
        else out[p]? := by
      intro p
      simp only [SIMDTypes.store, GaussianFinalizer.dest_x, GaussianFinalizer.dest_y, hk1, hk0,
        getElem?_storeAt, storeAt_length, List.length_map, hreg, List.getElem?_map,
        getElem?_load]
      by_cases ha : 2 * (m * S.ratio) ≤ p ∧ p < 2 * (m * S.ratio) + S.ratio
      · have ha2 : 2 * (m * S.ratio) ≤ p ∧ p < 2 * (m * S.ratio) + S.ratio ∧
            p < out.length := by omega
        have ha3 : p - 2 * (m * S.ratio) < S.ratio := by omega
        rw [if_pos ha, if_pos ha2, if_pos ha3]
      · have ha2 : ¬ (2 * (m * S.ratio) ≤ p ∧ p < 2 * (m * S.ratio) + S.ratio ∧
            p < out.length) := by omega
        rw [if_neg ha, if_neg ha2]
        by_cases hb : 2 * (m * S.ratio) + S.ratio ≤ p ∧ p < 2 * (m * S.ratio) + 2 * S.ratio
        · have hb2 : 2 * (m * S.ratio) + S.ratio ≤ p ∧
              p < 2 * (m * S.ratio) + S.ratio + S.ratio ∧ p < out.length := by omega
          have hb3 : p - (2 * (m * S.ratio) + S.ratio) < S.ratio := by omega
          rw [if_pos hb, if_pos hb2, if_pos hb3]
        · have hb2 : ¬ (2 * (m * S.ratio) + S.ratio ≤ p ∧
              p < 2 * (m * S.ratio) + S.ratio + S.ratio ∧ p < out.length) := by omega
          rw [if_neg hb, if_neg hb2]
    have hl2 : (S.store (S.store out (2 * m + 1)
          (if lp then S.sincos_u35 (S.load src m) else S.sincos_u10 (S.load src m)).y) (2 * m)
          (if lp then S.sincos_u35 (S.load src m) else S.sincos_u10 (S.load src m)).x).length
        = out.length := by
      simp [SIMDTypes.store, storeAt_length]
    obtain ⟨il, ihigh, imid⟩ := ih _ (by rw [hl2, hlen]) (by omega)
    simp only [GaussianFinalizer.outOfPlaceLoop]
    refine ⟨by rw [il, hl2], ?_, ?_⟩
    · intro p hp
      rw [hmul] at hp
      rw [ihigh p (by omega), hget, if_neg (by omega), if_neg (by omega)]
    · intro b j hb hj
      by_cases hbm : b < m
      · exact imid b j hbm hj
      · have hbe : b = m := by omega
        subst hbe
        rw [ihigh _ (by omega), ihigh _ (by omega), hget, hget]
        constructor
        · rw [if_pos (by omega)]
          congr 2
          omega
        · rw [if_neg (by omega), if_pos (by omega)]
          congr 2
          omega

/-- A position below `2 * (c * w)` lies in register `2b` or `2b + 1` of some `b < c`. -/
theorem register_of_position (c w p : Nat) (hp : p < 2 * (c * w)) :
    ∃ b j, b < c ∧ j < w ∧ (p = 2 * (b * w) + j ∨ p = 2 * (b * w) + w + j) := by
  have hw : 0 < w := by
    rcases Nat.eq_zero_or_pos w with h | h
    · rw [h] at hp
      simp at hp
    · exact h
  have hdm := Nat.div_add_mod p (2 * w)
  have hr : p % (2 * w) < 2 * w := Nat.mod_lt _ (by omega)
  have hb : p / (2 * w) < c := by
    apply Nat.div_lt_of_lt_mul
    have : 2 * w * c = 2 * (c * w) := by ring
    omega
  have he : 2 * w * (p / (2 * w)) = 2 * (p / (2 * w) * w) := by ring
  rw [he] at hdm
  by_cases hlt : p % (2 * w) < w
  · exact ⟨p / (2 * w), p % (2 * w), hb, hlt, Or.inl (by omega)⟩
  · exact ⟨p / (2 * w), p % (2 * w) - w, hb, by omega, Or.inr (by omega)⟩

/-- The in-place backward loop and the out-of-place loop give the same buffer, as long as
the 32-bit index arithmetic of the in-place loop does not wrap. -/
theorem GaussianFinalizer.loop_eq_outOfPlaceLoop {α : Type} (S : SIMDTypes α) (lp : Bool)
    (v : List α) (c : Nat) (hc : c < 2 ^ 31) (hfit : 2 * (c * S.ratio) ≤ v.length) :
    GaussianFinalizer.loop S lp c v = GaussianFinalizer.outOfPlaceLoop S lp v c v := by
  obtain ⟨_, hhigh, hmid⟩ := GaussianFinalizer.loop_spec S lp c v hc hfit
  obtain ⟨_, ohigh, omid⟩ := GaussianFinalizer.outOfPlaceLoop_spec S lp v c v rfl hfit
  apply List.ext_getElem?
  intro p
  by_cases hp : 2 * (c * S.ratio) ≤ p
  · rw [hhigh p hp, ohigh p hp]
  · obtain ⟨b, j, hb, hj, hpe | hpe⟩ := register_of_position c S.ratio p (by omega)
    · rw [hpe, (hmid b j hb hj).1, (omid b j hb hj).1]
    · rw [hpe, (hmid b j hb hj).2, (omid b j hb hj).2]

/-- With a loop counter of `0` the call returns the buffer as it was. -/
theorem GaussianFinalizer.apply_of_counter_zero {α : Type} (S : SIMDTypes α)
    (fin : GaussianFinalizer) (v : List α) (k : Nat) (hN : v.length = 2 ^ k)
    (hz : u32 ((v.length >>> 1) / S.ratio) = 0) : fin.apply S v = .ok v := by
  unfold GaussianFinalizer.apply
  rw [hz, hN, notPow2Test_two_pow]
  rfl

theorem GaussianFinalizer.applyOutOfPlace_layout {α : Type} (S : SIMDTypes α)
    (fin : GaussianFinalizer) (v : List α) :
    RegisterInterleaved S.ratio (S.lane_x fin.use_lowprec_) (S.lane_y fin.use_lowprec_) v
      (GaussianFinalizer.applyOutOfPlace S fin v) := by
  have hfit : 2 * (v.length / 2 / S.ratio * S.ratio) ≤ v.length := by
    have h1 := Nat.div_mul_le_self (v.length / 2) S.ratio
    omega
  obtain ⟨hl, hhigh, hmid⟩ := GaussianFinalizer.outOfPlaceLoop_spec S fin.use_lowprec_ v
    (v.length / 2 / S.ratio) v rfl hfit
  refine ⟨hl, ?_, ?_⟩
  · intro b j hb hj
    have e1 : 2 * b * S.ratio + j = 2 * (b * S.ratio) + j := by ring
    have e2 : (2 * b + 1) * S.ratio + j = 2 * (b * S.ratio) + S.ratio + j := by ring
    rw [e1, e2]
    exact hmid b j hb hj
  · intro p hp
    exact hhigh p (by rw [Nat.mul_assoc] at hp; exact hp)

/-- C14, on the code: as long as the loop counter `(N/2)/w` stays below `2 ^ 31`, the
in-place backward loop of `GaussianFinalizer::apply` returns exactly the buffer of the
out-of-place computation, whose registers `2b` and `2b + 1` hold the two components of the
primitive on the original register `b`, every position being written when `w` divides
`N/2`. The counter is a `u32`: on `2 ^ 34` elements in registers of two it wraps to `0`,
the call returns the buffer unchanged, and position 2 holds `0` where the out-of-place
computation has `1`. -/
theorem GaussianFinalizer.apply_vs_out_of_place :
    (∀ (α : Type) (S : SIMDTypes α) (fin : GaussianFinalizer) (v : List α) (k : Nat),
      v.length = 2 ^ k → v.length / 2 / S.ratio < 2 ^ 31 →
      fin.apply S v = .ok (GaussianFinalizer.applyOutOfPlace S fin v) ∧
      RegisterInterleaved S.ratio (S.lane_x fin.use_lowprec_) (S.lane_y fin.use_lowprec_) v
        (GaussianFinalizer.applyOutOfPlace S fin v) ∧
      (S.ratio ∣ v.length / 2 → 2 ≤ v.length →
        2 * (v.length / 2 / S.ratio) * S.ratio = v.length)) ∧
    GaussianFinalizer.apply (ratSimd 2) { use_lowprec_ := false } (List.replicate (2 ^ 34) 0)
      = .ok (List.replicate (2 ^ 34) 0) ∧
    (GaussianFinalizer.applyOutOfPlace (ratSimd 2) { use_lowprec_ := false }
      (List.replicate (2 ^ 34) 0))[2]? = some 1 ∧
    (List.replicate (2 ^ 34) (0 : ℚ))[2]? = some 0 := by
  have hv : (List.replicate (2 ^ 34) (0 : ℚ)).length = 2 ^ 34 := List.length_replicate _ _
  refine ⟨?_, ?_, ?_, ?_⟩
  · intro α S fin v k hN hc
    have hcnt : u32 ((v.length >>> 1) / S.ratio) = v.length / 2 / S.ratio := by
      simp only [u32, Nat.shiftRight_eq_div_pow, pow_one]
      exact Nat.mod_eq_of_lt (Nat.lt_trans hc (by decide))
    have hfit : 2 * (v.length / 2 / S.ratio * S.ratio) ≤ v.length := by
      have h1 := Nat.div_mul_le_self (v.length / 2) S.ratio
      omega
    refine ⟨?_, GaussianFinalizer.applyOutOfPlace_layout S fin v, ?_⟩
    · unfold GaussianFinalizer.apply GaussianFinalizer.applyOutOfPlace
      rw [hN, notPow2Test_two_pow, ← hN, hcnt,
        GaussianFinalizer.loop_eq_outOfPlaceLoop S fin.use_lowprec_ v _ hc hfit]
      rfl
    · intro hdvd h2
      have hk : 1 ≤ k := by
        rcases Nat.eq_zero_or_pos k with h | h
        · rw [h] at hN
          omega
        · exact h
      have heven : 2 * (v.length / 2) = v.length := by
        have : 2 ∣ v.length := by
          rw [hN]
          exact dvd_pow_self 2 (by omega)
        omega
      rw [Nat.mul_assoc, Nat.div_mul_cancel hdvd, heven]
  · exact GaussianFinalizer.apply_of_counter_zero (ratSimd 2) { use_lowprec_ := false } _ 34 hv
      (by rw [hv]; decide)
  · have hlay := GaussianFinalizer.applyOutOfPlace_layout (ratSimd 2) { use_lowprec_ := false }
      (List.replicate (2 ^ 34) (0 : ℚ))
    have h := (hlay.2.1 0 0 (by rw [hv]; decide) (by decide)).2
    have e : (2 * 0 + 1) * (ratSimd 2).ratio + 0 = 2 := by decide
    rw [List.getElem?_replicate, if_pos (by decide), e] at h
    rw [h]
    decide!
  · rw [List.getElem?_replicate, if_pos (by decide)]

/-- Witness of `GaussianFinalizer.apply_vs_out_of_place`: eight elements in registers of two. -/
theorem GaussianFinalizer.apply_vs_out_of_place_witness :
    ([0, 1, 2, 3, 4, 5, 6, 7] : List ℚ).length = 2 ^ 3 ∧
    ([0, 1, 2, 3, 4, 5, 6, 7] : List ℚ).length / 2 / (ratSimd 2).ratio < 2 ^ 31 ∧
    GaussianFinalizer.apply (ratSimd 2) { use_lowprec_ := false } [0, 1, 2, 3, 4, 5, 6, 7]
      = .ok (GaussianFinalizer.applyOutOfPlace (ratSimd 2) { use_lowprec_ := false }
        [0, 1, 2, 3, 4, 5, 6, 7]) :=
  ⟨by decide, by decide,
    (GaussianFinalizer.apply_vs_out_of_place.1 ℚ (ratSimd 2) { use_lowprec_ := false }
      [0, 1, 2, 3, 4, 5, 6, 7] 3 (by decide) (by decide)).1⟩

/-- C17: on a buffer whose length `N` is a power of two, with registers wider than `N/2`,
the loop counter of `GaussianFinalizer::apply` starts at `0`, so the loop body never runs
and the call returns the buffer with every position as it was. -/
theorem GaussianFinalizer.apply_short_buffer {α : Type} (S : SIMDTypes α)
    (fin : GaussianFinalizer) (v : List α) (k : Nat) (hN : v.length = 2 ^ k)
    (hw : v.length / 2 < S.ratio) :
    u32 ((v.length >>> 1) / S.ratio) = 0 ∧
    GaussianFinalizer.loop S fin.use_lowprec_ (u32 ((v.length >>> 1) / S.ratio)) v = v ∧
    fin.apply S v = .ok v := by
  have hz : u32 ((v.length >>> 1) / S.ratio) = 0 := by
    simp only [u32, Nat.shiftRight_eq_div_pow, pow_one, Nat.div_eq_of_lt hw]
    rfl
  refine ⟨hz, ?_, GaussianFinalizer.apply_of_counter_zero S fin v k hN hz⟩
  rw [hz]
  rfl

/-- Witness of `GaussianFinalizer.apply_short_buffer`: four elements, registers of four. -/
theorem GaussianFinalizer.apply_short_buffer_witness :
    ([1, 2, 3, 4] : List ℚ).length = 2 ^ 2 ∧
    ([1, 2, 3, 4] : List ℚ).length / 2 < (ratSimd 4).ratio ∧
    GaussianFinalizer.apply (ratSimd 4) { use_lowprec_ := false } [1, 2, 3, 4]
      = .ok [1, 2, 3, 4] :=
  ⟨by decide, by decide,
    (GaussianFinalizer.apply_short_buffer (ratSimd 4) { use_lowprec_ := false } [1, 2, 3, 4] 2
      (by decide) (by decide)).2.2⟩

/-! ## The final scaling of `Kernel::apply` -/

/-- C15: in every successful `Kernel::apply` the result is the buffer left by the loop over
all blocks (each applied and finalized) with every one of its `L` positions multiplied
once by the one factor `1/√(L/2)`. -/
theorem Kernel.apply_scales_whole_output {α : Type} (F : FloatOps α) (P : Spinner α)
    (S : SIMDTypes α) (K : Kernel α) (fresh : Nat → α) (out : OutputType α)
    (inp res : List α) (h : K.apply F P S fresh out inp = .ok res) :
    ∃ data data1,
      K.sizeOut fresh out inp = .ok data ∧
      Kernel.applyBlocks F P S K.finalizer_ inp (roundup inp.length) K.blocks_ 0 data
        = .ok data1 ∧
      data1.length = res.length ∧
      ∀ j, j < res.length →
        res[j]? = data1[j]?.map
          (fun a => F.mul a (F.div F.one (F.sqrt (F.ofNat (res.length / 2))))) := by
  unfold Kernel.apply at h
  cases hsz : K.sizeOut fresh out inp with
  | error e =>
    simp only [hsz] at h
    cases h
  | ok data =>
    simp only [hsz] at h
    cases hab : Kernel.applyBlocks F P S K.finalizer_ inp (roundup inp.length)
        K.blocks_ 0 data with
    | error e =>
      simp only [hab] at h
      cases h
    | ok data1 =>
      simp only [hab] at h
      cases h
      refine ⟨data, data1, rfl, hab, by simp [blockmul], ?_⟩
      intro j _
      simp [blockmul, Nat.shiftRight_eq_div_pow]

/-- Witness of `Kernel.apply_scales_whole_output`: the ensemble of one block of dimension
4 on a view of eight nines; the factor is `1/√4 = 1/2`. -/
theorem Kernel.apply_scales_whole_output_witness :
    Kernel.apply ratOps ratSpinner (ratSimd 1) ratKernel (fun _ => 0)
      { isView := true, data := [9, 9, 9, 9, 9, 9, 9, 9] } [0, 0, 0, 0]
      = .ok [0, 1 / 2, 0, 1 / 2, 9 / 2, 9 / 2, 9 / 2, 9 / 2] ∧
    ∃ data data1,
      ratKernel.sizeOut (fun _ => 0) { isView := true, data := [9, 9, 9, 9, 9, 9, 9, 9] }
        [0, 0, 0, 0] = .ok data ∧
      Kernel.applyBlocks ratOps ratSpinner (ratSimd 1) ratKernel.finalizer_ [0, 0, 0, 0]
        (roundup 4) ratKernel.blocks_ 0 data = .ok data1 ∧
      data1.length = 8 ∧
      ∀ j, j < 8 →
        ([0, 1 / 2, 0, 1 / 2, 9 / 2, 9 / 2, 9 / 2, 9 / 2] : List ℚ)[j]? = data1[j]?.map
          (fun a => ratOps.mul a (ratOps.div ratOps.one (ratOps.sqrt (ratOps.ofNat (8 / 2))))) := by
  have h : Kernel.apply ratOps ratSpinner (ratSimd 1) ratKernel (fun _ => 0)
      { isView := true, data := [9, 9, 9, 9, 9, 9, 9, 9] } [0, 0, 0, 0]
      = .ok [0, 1 / 2, 0, 1 / 2, 9 / 2, 9 / 2, 9 / 2, 9 / 2] := by decide!
  exact ⟨h, Kernel.apply_scales_whole_output ratOps ratSpinner (ratSimd 1) ratKernel
    (fun _ => 0) { isView := true, data := [9, 9, 9, 9, 9, 9, 9, 9] } [0, 0, 0, 0] _ h⟩

end frp

namespace gfrp

/-! ## Suffix tests and the inferred compression type -/

theorem equal3_spec (pat : List Char) : ∀ (ref : List Char),
    equal3 pat ref =
      if pat.isPrefixOf ref then some true
      else if ref.isPrefixOf pat then none else some false := by
  induction pat with
  | nil =>
    intro ref
    simp [equal3]
  | cons a pat ih =>
    intro ref
    cases ref with
    | nil => simp [equal3]
    | cons b ref =>
      by_cases hab : a = b
      · subst hab
        simp [equal3, ih ref]
      · have hba : ¬ b = a := fun h => hab h.symm
        simp [equal3, List.isPrefixOf_cons₂, hab, hba]

/-- What `ends_with(pat, ref)` does: `true` when `ref` ends in `pat`; a read outside `ref`
when `ref` is a proper tail of `pat`; `false` otherwise. -/
theorem ends_with_spec (pat ref : String) :
    ends_with pat ref =
      if pat.data.isSuffixOf ref.data then some true
      else if ref.data.isSuffixOf pat.data then none else some false := by
  unfold ends_with
  rw [equal3_spec]
  rfl

/-- The suffix test is the plain one on a path that is not a proper tail of the suffix. -/
theorem ends_with_inside (pat ref : String)
    (h : ref.data.isSuffixOf pat.data = true → pat.data.isSuffixOf ref.data = true) :
    ends_with pat ref = some (pat.data.isSuffixOf ref.data) := by
  rw [ends_with_spec]
  cases h1 : pat.data.isSuffixOf ref.data with
  | true => simp
  | false =>
    cases h2 : ref.data.isSuffixOf pat.data with
    | true =>
      rw [h h2] at h1
      cases h1
    | false => simp

theorem infer_ctype_inside (path : String)
    (hz : path.data.isSuffixOf zlibsuf.data = true → zlibsuf.data.isSuffixOf path.data = true)
    (hb : path.data.isSuffixOf bzip2suf.data = true → bzip2suf.data.isSuffixOf path.data = true)
    (hs : path.data.isSuffixOf zstdsuf.data = true → zstdsuf.data.isSuffixOf path.data = true) :
    infer_ctype path = some
      (if zlibsuf.data.isSuffixOf path.data then ZLIB
       else if bzip2suf.data.isSuffixOf path.data then BZIP2
       else if zstdsuf.data.isSuffixOf path.data then ZSTD
       else UNCOMPRESSED) := by
  unfold infer_ctype
  rw [ends_with_inside zlibsuf path hz, ends_with_inside bzip2suf path hb,
    ends_with_inside zstdsuf path hs]
  cases zlibsuf.data.isSuffixOf path.data <;> cases bzip2suf.data.isSuffixOf path.data <;>
    cases zstdsuf.data.isSuffixOf path.data <;> rfl

/-- C12, evaluated on the code: `infer_ctype` returns the type of the first matching suffix
(`.gz`, then `.bz2`, then `.zst`, else uncompressed) on every path that is not a proper tail
of one of the suffixes; on such a tail, `ends_with` compares past the first character of the
path: `ends_with(".gz", "gz")` reads outside the path, and so does `infer_ctype` on `"gz"`,
`""` and `"2"`. -/
theorem infer_ctype_reads_outside_short_paths :
    (∀ pat ref : String, ends_with pat ref =
      if pat.data.isSuffixOf ref.data then some true
      else if ref.data.isSuffixOf pat.data then none else some false) ∧
    (∀ path : String,
      (path.data.isSuffixOf zlibsuf.data = true → zlibsuf.data.isSuffixOf path.data = true) →
      (path.data.isSuffixOf bzip2suf.data = true → bzip2suf.data.isSuffixOf path.data = true) →
      (path.data.isSuffixOf zstdsuf.data = true → zstdsuf.data.isSuffixOf path.data = true) →
      infer_ctype path = some
        (if zlibsuf.data.isSuffixOf path.data then ZLIB
         else if bzip2suf.data.isSuffixOf path.data then BZIP2
         else if zstdsuf.data.isSuffixOf path.data then ZSTD
         else UNCOMPRESSED)) ∧
    ends_with zlibsuf "gz" = none ∧
    infer_ctype "gz" = none ∧
    infer_ctype "" = none ∧
    infer_ctype "2" = none := by
  refine ⟨ends_with_spec, infer_ctype_inside, ?_, ?_, ?_, ?_⟩ <;> decide

/-- Witness of `infer_ctype_reads_outside_short_paths`: the one-character path `"a"` and
the path `"run.bz2"`. -/
theorem infer_ctype_reads_outside_short_paths_witness :
    infer_ctype "a" = some UNCOMPRESSED ∧ infer_ctype "run.bz2" = some BZIP2 := by
  have h := infer_ctype_reads_outside_short_paths.2.1
  exact ⟨h "a" (by decide) (by decide) (by decide),
    h "run.bz2" (by decide) (by decide) (by decide)⟩

/-! ## The source that `LineReader::begin` opens -/

theorem openCall_init_uncompressed (path : String) (delim : Char) (bufsz : Nat) :
    (LineReader.init path UNCOMPRESSED delim bufsz).openCall = .ok (.fopen path "r") := rfl

/-- C13, as the code has it: for a path that ends in none of `.gz`, `.bz2`, `.zst` (and is
not a tail of one of them, so that the suffix tests stay inside it), a `LineReader`
constructed with the default type `UNKNOWN` gets type `UNCOMPRESSED`; `begin()` then
calls `fopen(path, "r")` on the file itself, never throws the "Unexpected ctype code"
error, and, whenever `fopen` opens the file, returns after reading the first record of
the file as uncompressed text. -/
theorem LineReader.begin_unsupported_suffix (W : Streams) (path : String) (delim : Char)
    (bufsz : Nat)
    (hz : zlibsuf.data.isSuffixOf path.data = false)
    (hb : bzip2suf.data.isSuffixOf path.data = false)
    (hs : zstdsuf.data.isSuffixOf path.data = false)
    (hz2 : path.data.isSuffixOf zlibsuf.data = false)
    (hb2 : path.data.isSuffixOf bzip2suf.data = false)
    (hs2 : path.data.isSuffixOf zstdsuf.data = false) :
    infer_ctype path = some UNCOMPRESSED ∧
    LineReader.mk? path delim bufsz UNKNOWN
      = some (LineReader.init path UNCOMPRESSED delim bufsz) ∧
    (LineReader.init path UNCOMPRESSED delim bufsz).openCall = .ok (.fopen path "r") ∧
    (∀ msg, LineReader.begin W (LineReader.init path UNCOMPRESSED delim bufsz)
      ≠ .error (.runtime_error msg)) ∧
    (∀ content, W.openStream (.fopen path "r") = some content →
      LineReader.begin W (LineReader.init path UNCOMPRESSED delim bufsz)
        = .ok { fp_ := some { source := .fopen path "r", rest := (getdelim delim content).2 }
                path_ := path
                ctype_ := UNCOMPRESSED
                delim_ := delim
                bufsz_ := W.grow bufsz (getdelim delim content).1.length
                len_ := if (getdelim delim content).1 = [] then -1
                  else ((getdelim delim content).1.length : Int)
                data_ := (getdelim delim content).1 }) := by
  have hinf : infer_ctype path = some UNCOMPRESSED := by
    rw [infer_ctype_inside path (by rw [hz2]; intro h; cases h) (by rw [hb2]; intro h; cases h)
      (by rw [hs2]; intro h; cases h), hz, hb, hs]
    rfl
  refine ⟨hinf, ?_, rfl, ?_, ?_⟩
  · unfold LineReader.mk?
    rw [hinf]
    rfl
  · intro msg h
    unfold LineReader.begin at h
    rw [openCall_init_uncompressed] at h
    simp only [LineReader.advance] at h
    cases ho : W.openStream (.fopen path "r") with
    | none =>
      simp [ho, LineReader.init] at h
    | some c =>
      simp [ho, LineReader.init] at h
  · intro content ho
    unfold LineReader.begin
    rw [openCall_init_uncompressed]
    simp only [LineReader.advance, ho, LineReader.init, Option.map_some']
    by_cases hrec : (getdelim delim content).1 = []
    · simp [hrec]
    · simp [hrec]

/-- Witness of `LineReader.begin_unsupported_suffix`: the path `"data.xz"`, whose file
holds the lines `"ab"` and `"cd"`. -/
theorem LineReader.begin_unsupported_suffix_witness :
    infer_ctype "data.xz" = some UNCOMPRESSED ∧
    LineReader.mk? "data.xz" (Char.ofNat 10) 0 UNKNOWN
      = some (LineReader.init "data.xz" UNCOMPRESSED (Char.ofNat 10) 0) ∧
    LineReader.begin demoStreams (LineReader.init "data.xz" UNCOMPRESSED (Char.ofNat 10) 0)
      = .ok { fp_ := some { source := .fopen "data.xz" "r", rest := "cd".data }
              path_ := "data.xz"
              ctype_ := UNCOMPRESSED
              delim_ := Char.ofNat 10
              bufsz_ := 4
              len_ := 3
              data_ := "ab".data ++ [Char.ofNat 10] } := by
  have h := LineReader.begin_unsupported_suffix demoStreams "data.xz" (Char.ofNat 10) 0
    (by decide) (by decide) (by decide) (by decide) (by decide) (by decide)
  refine ⟨h.1, h.2.1, ?_⟩
  rw [h.2.2.2.2 ("ab".data ++ [Char.ofNat 10] ++ "cd".data) (by decide)]
  decide

/-- C13 as stated fails: the path `"data.xz"` ends in none of the supported suffixes, and
`begin()` on a `LineReader` constructed on it with the default type raises no error: it
opens `"data.xz"` itself with `fopen` and returns with the first line, `"ab"`, read. -/
theorem LineReader.begin_xz_opens_file :
    zlibsuf.data.isSuffixOf "data.xz".data = false ∧
    bzip2suf.data.isSuffixOf "data.xz".data = false ∧
    zstdsuf.data.isSuffixOf "data.xz".data = false ∧
    (LineReader.mk? "data.xz" (Char.ofNat 10) 0 UNKNOWN).map LineReader.openCall
      = some (.ok (.fopen "data.xz" "r")) ∧
    (LineReader.mk? "data.xz" (Char.ofNat 10) 0 UNKNOWN).map (LineReader.begin demoStreams)
      = some (.ok { fp_ := some { source := .fopen "data.xz" "r", rest := "cd".data }
                    path_ := "data.xz"
                    ctype_ := UNCOMPRESSED
                    delim_ := Char.ofNat 10
                    bufsz_ := 4
                    len_ := 3
                    data_ := "ab".data ++ [Char.ofNat 10] }) := by
  refine ⟨?_, ?_, ?_, ?_, ?_⟩ <;> decide

/-- C16, evaluated on the code: the `switch` of `begin()` calls `fopen` on the file itself
for `UNCOMPRESSED`, `popen` on `"gzip -dc "` or `"bzip2 -dc "` followed by the path for
`ZLIB` or `BZIP2`, and throws "Unexpected ctype code" for every code outside the four;
`begin()` opens exactly the stream of that one call. For `ZSTD` the command is `"ztd -dc "`
followed by the path, not `"zstd -dc "`. -/
theorem LineReader.begin_sources :
    (∀ r : LineReader, LineReader.openCall { r with ctype_ := UNCOMPRESSED }
      = .ok (.fopen r.path_ "r")) ∧
    (∀ r : LineReader, LineReader.openCall { r with ctype_ := ZLIB }
      = .ok (.popen ("gzip -dc " ++ r.path_) "r")) ∧
    (∀ r : LineReader, LineReader.openCall { r with ctype_ := BZIP2 }
      = .ok (.popen ("bzip2 -dc " ++ r.path_) "r")) ∧
    (∀ r : LineReader, LineReader.openCall { r with ctype_ := ZSTD }
      = .ok (.popen ("ztd -dc " ++ r.path_) "r")) ∧
    (∀ r : LineReader,
      r.ctype_ ≠ UNCOMPRESSED → r.ctype_ ≠ ZLIB → r.ctype_ ≠ ZSTD → r.ctype_ ≠ BZIP2 →
      r.openCall = .error ("Unexpected ctype code: " ++ toString r.ctype_) ∧
      ∀ W, LineReader.begin W r
        = .error (.runtime_error ("Unexpected ctype code: " ++ toString r.ctype_))) ∧
    (∀ (W : Streams) (r : LineReader) (src : Source) (content : List Char),
      r.openCall = .ok src → W.openStream src = some content →
      ∃ r2, LineReader.begin W r = .ok r2 ∧
        r2.fp_ = some { source := src, rest := (getdelim r.delim_ content).2 }) ∧
    LineReader.openCall (LineReader.init "a.zst" ZSTD (Char.ofNat 10) 0)
      = .ok (.popen "ztd -dc a.zst" "r") ∧
    LineReader.openCall (LineReader.init "a.zst" ZSTD (Char.ofNat 10) 0)
      ≠ .ok (.popen "zstd -dc a.zst" "r") ∧
    (LineReader.mk? "a.zst" (Char.ofNat 10) 0 UNKNOWN).map LineReader.openCall
      = some (.ok (.popen "ztd -dc a.zst" "r")) := by
  refine ⟨fun _ => rfl, fun _ => rfl, fun _ => rfl, fun _ => rfl, ?_, ?_,
    by decide, by decide, by decide⟩
  · intro r h0 h1 h2 h3
    have hcall : r.openCall = .error ("Unexpected ctype code: " ++ toString r.ctype_) := by
      unfold LineReader.openCall
      simp only [h0, h1, h2, h3, if_false]
    refine ⟨hcall, ?_⟩
    intro W
    unfold LineReader.begin
    rw [hcall]
  · intro W r src content hcall ho
    refine ⟨{ r with
        fp_ := some { source := src, rest := (getdelim r.delim_ content).2 }
        len_ := if (getdelim r.delim_ content).1 = [] then -1
          else ((getdelim r.delim_ content).1.length : Int)
        data_ := if (getdelim r.delim_ content).1 = [] then r.data_
          else (getdelim r.delim_ content).1
        bufsz_ := W.grow r.bufsz_ (getdelim r.delim_ content).1.length }, ?_, rfl⟩
    unfold LineReader.begin
    rw [hcall]
    simp only [ho, Option.map_some', LineReader.advance]

/-- Witness of `LineReader.begin_sources`: the type code 7 throws, and a reader of type
`ZSTD` on `"a.zst"` opens the pipe of `"ztd -dc a.zst"`, which delivers nothing. -/
theorem LineReader.begin_sources_witness :
    LineReader.begin demoStreams (LineReader.init "a.txt" 7 (Char.ofNat 10) 0)
      = .error (.runtime_error ("Unexpected ctype code: " ++ toString (7 : CType))) ∧
    ∃ r2, LineReader.begin demoStreams (LineReader.init "a.zst" ZSTD (Char.ofNat 10) 0)
        = .ok r2 ∧
      r2.fp_ = some { source := .popen "ztd -dc a.zst" "r", rest := [] } :=
  ⟨(LineReader.begin_sources.2.2.2.2.1 (LineReader.init "a.txt" 7 (Char.ofNat 10) 0)
      (by decide) (by decide) (by decide) (by decide)).2 demoStreams,
    LineReader.begin_sources.2.2.2.2.2.1 demoStreams
      (LineReader.init "a.zst" ZSTD (Char.ofNat 10) 0) (.popen "ztd -dc a.zst" "r") []
      (by decide) (by decide)⟩

end gfrp
